import Mathlib

/-!
# Verification of the trendFinder content pipeline

Shallow embedding of the deterministic core of the trendFinder repository:
quality scoring (`QualityFilter`), content mixing and deduplication
(`ContentMixer`), topic grouping (`TopicClustering`), historical trend
classification (`HistoricalComparison` / `InfluenceScoring`) and daily
report persistence (`HistoryStorage`).

Modelling conventions:
* JavaScript numbers are modelled as exact rationals (`ℚ`); integer-valued
  configuration fields and counters as `ℤ`/`ℕ`.
* `Math.round x` rounds half toward positive infinity, i.e. `⌊x + 1/2⌋`.
* `Array.prototype.sort` with comparator `(a, b) => key(b) - key(a)` is the
  stable descending sort by `key`; it is modelled by `List.insertionSort`
  with the relation `key b ≤ key a`, which is stable in the same sense.
* JavaScript `Map` iteration order (insertion order of keys, `set` on an
  existing key keeps its position) is modelled by association lists.
-/

/-- JavaScript `Math.round`: round half toward `+∞`. -/
def jsRound (q : ℚ) : ℤ := ⌊q + 1 / 2⌋

/-- Stable descending sort by a rational key, the behaviour of
`array.sort((a, b) => key(b) - key(a))` (stable since ES2019). -/
def sortByDesc {α : Type} (key : α → ℚ) (l : List α) : List α :=
  l.insertionSort (fun a b => key b ≤ key a)

theorem sortByDesc_perm {α : Type} (key : α → ℚ) (l : List α) :
    List.Perm (sortByDesc key l) l :=
  List.perm_insertionSort _ l

theorem sortByDesc_sorted {α : Type} (key : α → ℚ) (l : List α) :
    (sortByDesc key l).Sorted (fun a b => key b ≤ key a) := by
  have : IsTotal α (fun a b => key b ≤ key a) := ⟨fun a b => (le_total (key b) (key a))⟩
  have : IsTrans α (fun a b => key b ≤ key a) :=
    ⟨fun _ _ _ h h' => le_trans h' h⟩
  exact List.sorted_insertionSort _ l

theorem filter_orderedInsert_of_eq {α : Type} (key : α → ℚ) (c : ℚ) (x : α)
    (l : List α) (hx : key x = c) :
    (l.orderedInsert (fun a b => key b ≤ key a) x).filter (fun a => key a = c)
      = x :: l.filter (fun a => key a = c) := by
  induction l with
  | nil => simp [List.orderedInsert, List.filter_cons, hx]
  | cons y ys ih =>
    by_cases h : key y ≤ key x
    · simp only [List.orderedInsert, if_pos h, List.filter_cons]
      simp [hx]
    · have hyc : ¬ (key y = c) := fun hc => h (hx ▸ hc ▸ le_refl (key y))
      simp only [List.orderedInsert, if_neg h, List.filter_cons]
      simp [hyc, ih]

theorem filter_orderedInsert_of_ne {α : Type} (key : α → ℚ) (c : ℚ) (x : α)
    (l : List α) (hx : ¬ key x = c) :
    (l.orderedInsert (fun a b => key b ≤ key a) x).filter (fun a => key a = c)
      = l.filter (fun a => key a = c) := by
  induction l with
  | nil => simp [List.orderedInsert, List.filter_cons, hx]
  | cons y ys ih =>
    by_cases h : key y ≤ key x
    · simp only [List.orderedInsert, if_pos h, List.filter_cons]
      simp [hx]
    · simp only [List.orderedInsert, if_neg h, List.filter_cons]
      by_cases hyc : key y = c
      · simp [hyc, ih]
      · simp [hyc, ih]

/-- Stability of `sortByDesc`: the subsequence of elements with any fixed key
value is preserved, i.e. equal-key elements keep their input order. -/
theorem sortByDesc_filter_eq {α : Type} (key : α → ℚ) (c : ℚ) (l : List α) :
    (sortByDesc key l).filter (fun a => key a = c) = l.filter (fun a => key a = c) := by
  induction l with
  | nil => rfl
  | cons x xs ih =>
    show ((sortByDesc key xs).orderedInsert _ x).filter _ = _
    by_cases hx : key x = c
    · rw [filter_orderedInsert_of_eq key c x _ hx, ih]
      simp [List.filter, hx]
    · rw [filter_orderedInsert_of_ne key c x _ hx, ih]
      simp [List.filter, hx]

/-! ## Data model (src/services/contentMixing) -/

/-- Origin of a story: tracked-account scraping or keyword search
(`source: "account" | "search"`). -/
inductive Source
  | account
  | search
deriving DecidableEq, Repr

/-- The `qualityScore` object attached by `QualityFilter.scoreStory`. -/
structure QualityScore where
  relevance : ℚ
  quality : ℚ
  novelty : ℚ
  impact : ℚ
  finalScore : ℚ
deriving DecidableEq, Repr

/-- A story before scoring (`EnhancedStory` in qualityFilter.ts); the
`imageUrl`/`pubDate`/`searchQuery` metadata fields are carried along
untouched by every function verified here and are omitted. -/
structure EnhancedStory where
  headline : String
  link : String
  date_posted : String
  author : Option String := none
  source : Source
deriving DecidableEq, Repr

/-- A scored story (`ScoredStory` in contentMixer.ts / qualityFilter.ts). -/
structure ScoredStory where
  headline : String
  link : String
  date_posted : String
  author : Option String := none
  source : Source
  qualityScore : QualityScore
deriving DecidableEq, Repr

/-- `config/mixing-rules.json` → `dynamicRatio` section (the repository ships
`enabled: true, accountsMin: 30, accountsMax: 70`). -/
structure DynamicRatioRules where
  enabled : Bool
  accountsMin : ℤ
  accountsMax : ℤ
  searchMin : ℤ
  searchMax : ℤ
deriving DecidableEq, Repr

/-! ## Association lists modelling JavaScript `Map`

`Map.set` on a fresh key appends; on an existing key it replaces the value
keeping the key's original insertion position. `Map.values()` iterates in
key-insertion order. -/

/-- `map.set(k, v)` on an association list. -/
def mapSet {β : Type} : List (String × β) → String → β → List (String × β)
  | [], k, v => [(k, v)]
  | (k', v') :: rest, k, v =>
      if k' = k then (k, v) :: rest else (k', v') :: mapSet rest k v

/-- `map.get(k)` on an association list. -/
def mapGet {β : Type} : List (String × β) → String → Option β
  | [], _ => none
  | (k', v) :: rest, k => if k' = k then some v else mapGet rest k

/-! ## ContentMixer (contentMixer.ts) -/

namespace ContentMixer

/-- Characters matched by JavaScript `\w`: ASCII letters, digits, underscore. -/
def isWordChar (c : Char) : Bool :=
  (('a' ≤ c ∧ c ≤ 'z') ∨ ('A' ≤ c ∧ c ≤ 'Z') ∨ ('0' ≤ c ∧ c ≤ '9') ∨ c = '_' : Prop)

/-- Characters matched by JavaScript `\s` (the common ones: space, tab,
line feed, vertical tab, form feed, carriage return, no-break space). -/
def isJsWhitespace (c : Char) : Bool :=
  (c = ' ' ∨ c = '\t' ∨ c = '\n' ∨ c = '\x0b' ∨ c = '\x0c' ∨ c = '\r'
    ∨ c = ' ' : Prop)

/-- CJK ideographs `一`-`鿿`, explicitly retained by the regex. -/
def isCjk (c : Char) : Bool :=
  (0x4e00 ≤ c.toNat ∧ c.toNat ≤ 0x9fff : Prop)

/-- A character surviving `.replace(/[^\w\s一-鿿]/g, "")`. -/
def keepChar (c : Char) : Bool :=
  isWordChar c || isJsWhitespace c || isCjk c

/-- `String.prototype.trim`: drop leading and trailing whitespace. -/
def trimChars (l : List Char) : List Char :=
  ((l.dropWhile isJsWhitespace).reverse.dropWhile isJsWhitespace).reverse

/-- The headline normalization inside `generateFingerprint`:
`headline.toLowerCase().replace(/[^\w\s一-鿿]/g, "").trim()`.
Lower-casing is ASCII (`Char.toLower`), as in the headlines exercised here.
Note: interior whitespace is NOT collapsed — only strip and trim. -/
def normalizeHeadline (s : String) : String :=
  String.mk (trimChars ((s.toList.map Char.toLower).filter keepChar))

/-- `generateFingerprint`: md5 of the normalized headline. The hash is
modelled as the normalized string itself: the pipeline only consumes
fingerprint *equality*, and md5 is injective up to collision (the spec makes
the hash choice non-load-bearing, only determinism). -/
def generateFingerprint (story : ScoredStory) : String :=
  normalizeHeadline story.headline

/-- One iteration of the dedup loop body in `deduplicateStories`. -/
def dedupStep (seen : List (String × ScoredStory)) (story : ScoredStory) :
    List (String × ScoredStory) :=
  let fingerprint := generateFingerprint story
  match mapGet seen fingerprint with
  | none => mapSet seen fingerprint story
  | some existing =>
      if existing.qualityScore.finalScore < story.qualityScore.finalScore then
        mapSet seen fingerprint story
      else seen

/-- `deduplicateStories`: returns `(unique, duplicates)` where `unique` is
`Array.from(seen.values())` and `duplicates = stories.length - seen.size`. -/
def deduplicateStories (stories : List ScoredStory) :
    List ScoredStory × ℕ :=
  let seen := stories.foldl dedupStep []
  (seen.map Prod.snd, stories.length - seen.length)

/-- `calculateAverageScore`: 0 on empty input, else `Math.round(sum / length)`. -/
def calculateAverageScore (stories : List ScoredStory) : ℤ :=
  if stories = [] then 0
  else jsRound ((stories.map (fun s => s.qualityScore.finalScore)).sum / stories.length)

/-- `calculateDynamicRatio`: `(accountRatio, searchRatio)`. -/
def calculateDynamicRatio (rules : DynamicRatioRules)
    (accountStories searchStories : List ScoredStory) : ℤ × ℤ :=
  if rules.enabled = false then (50, 50)
  else
    let accountAvg := calculateAverageScore accountStories
    let searchAvg := calculateAverageScore searchStories
    if 0 < accountAvg ∧ 0 < searchAvg then
      let total : ℚ := (accountAvg : ℚ) + (searchAvg : ℚ)
      let raw := jsRound ((accountAvg : ℚ) / total * 100)
      let accountRatio := max rules.accountsMin (min rules.accountsMax raw)
      (accountRatio, 100 - accountRatio)
    else (50, 50)

/-- The hardcoded size cap in `applyRatio`
(`Math.min(stories.length, 50)` — "Max 50 stories in final report"). -/
def maxTotalResults : ℕ := 50

/-- `applyRatio` with the size cap as an explicit parameter.
`slice(0, n)` equals `take n` for the non-negative targets arising from a
ratio in `[0, 100]`. -/
def applyRatioWith (maxTotal : ℕ) (stories : List ScoredStory)
    (accountRatio searchRatio : ℤ) : List ScoredStory :=
  let accountStories := stories.filter (fun s => decide (s.source = Source.account))
  let searchStories := stories.filter (fun s => decide (s.source = Source.search))
  let targetTotal : ℕ := min stories.length maxTotal
  let targetAccounts : ℤ := jsRound ((targetTotal : ℚ) * (accountRatio : ℚ) / 100)
  let targetSearch : ℤ := (targetTotal : ℤ) - targetAccounts
  let sortedAccounts := sortByDesc (fun s => s.qualityScore.finalScore) accountStories
  let sortedSearch := sortByDesc (fun s => s.qualityScore.finalScore) searchStories
  sortedAccounts.take targetAccounts.toNat ++ sortedSearch.take targetSearch.toNat

/-- `applyRatio` as in the source, with the hardcoded cap of 50. -/
def applyRatio (stories : List ScoredStory) (accountRatio searchRatio : ℤ) :
    List ScoredStory :=
  applyRatioWith maxTotalResults stories accountRatio searchRatio

end ContentMixer

/-! ## QualityFilter (qualityFilter.ts) -/

/-- The four sub-scores parsed from the scoring oracle's JSON reply. -/
structure OracleScores where
  relevance : ℚ
  quality : ℚ
  novelty : ℚ
  impact : ℚ
deriving DecidableEq, Repr

namespace QualityFilter

/-- The success path of `scoreStory`: attach the four sub-scores and the
derived `finalScore = Math.round(0.3·relevance + 0.3·quality + 0.2·novelty +
0.2·impact)`. No clamping of the sub-scores happens anywhere. -/
def scoreStory (story : EnhancedStory) (result : OracleScores) : ScoredStory :=
  let finalScore : ℚ :=
    result.relevance * 0.3 + result.quality * 0.3 +
      result.novelty * 0.2 + result.impact * 0.2
  { headline := story.headline
    link := story.link
    date_posted := story.date_posted
    author := story.author
    source := story.source
    qualityScore :=
      { relevance := result.relevance
        quality := result.quality
        novelty := result.novelty
        impact := result.impact
        finalScore := (jsRound finalScore : ℚ) } }

/-- `filterAndScore` after the batched oracle calls resolve: each input story
is paired with `some` oracle result (fulfilled) or `none` (failed call, the
story is dropped); results are collected in input order
(`Promise.allSettled` preserves order), filtered by
`finalScore >= finalScoreMin`, and stably sorted descending by `finalScore`. -/
def filterAndScore (inputs : List (EnhancedStory × Option OracleScores))
    (finalScoreMin : ℚ) : List ScoredStory :=
  let scoredStories := inputs.filterMap (fun p => p.2.map (scoreStory p.1))
  let filtered := scoredStories.filter
    (fun s => decide (finalScoreMin ≤ s.qualityScore.finalScore))
  sortByDesc (fun s => s.qualityScore.finalScore) filtered

end QualityFilter

/-! ## Association-list lemmas -/

theorem mapGet_mapSet {β : Type} (m : List (String × β)) (k k' : String) (v : β) :
    mapGet (mapSet m k v) k' = if k = k' then some v else mapGet m k' := by
  induction m with
  | nil => simp [mapSet, mapGet]
  | cons p rest ih =>
    obtain ⟨pk, pv⟩ := p
    by_cases h : pk = k
    · subst h
      by_cases h' : pk = k' <;> simp [mapSet, mapGet, h']
    · simp only [mapSet, if_neg h, mapGet]
      by_cases h' : pk = k'
      · subst h'
        simp [mapGet, if_neg (fun hk : k = pk => h hk.symm)]
      · simp [mapGet, if_neg h', ih]

theorem mem_mapSet {β : Type} (k : String) (v : β) (p : String × β) :
    ∀ m : List (String × β), p ∈ mapSet m k v → p = (k, v) ∨ p ∈ m := by
  intro m
  induction m with
  | nil =>
    intro hp
    simpa [mapSet] using hp
  | cons q rest ih =>
    obtain ⟨qk, qv⟩ := q
    intro hp
    by_cases h : qk = k
    · simp only [mapSet, if_pos h, List.mem_cons] at hp
      rcases hp with hp | hp
      · exact Or.inl hp
      · exact Or.inr (List.mem_cons_of_mem _ hp)
    · simp only [mapSet, if_neg h, List.mem_cons] at hp
      rcases hp with hp | hp
      · exact Or.inr (by rw [hp]; exact List.mem_cons_self _ _)
      · rcases ih hp with h1 | h1
        · exact Or.inl h1
        · exact Or.inr (List.mem_cons_of_mem _ h1)

theorem mem_keys_mapSet {β : Type} (m : List (String × β)) (k k' : String) (v : β) :
    k' ∈ (mapSet m k v).map Prod.fst ↔ k' = k ∨ k' ∈ m.map Prod.fst := by
  induction m with
  | nil => simp [mapSet]
  | cons q rest ih =>
    obtain ⟨qk, qv⟩ := q
    by_cases h : qk = k
    · subst h
      simp [mapSet]
    · simp only [mapSet, if_neg h, List.map_cons, List.mem_cons, ih]
      tauto

theorem keys_nodup_mapSet {β : Type} {m : List (String × β)} (k : String) (v : β)
    (h : (m.map Prod.fst).Nodup) : ((mapSet m k v).map Prod.fst).Nodup := by
  induction m with
  | nil => simp [mapSet]
  | cons q rest ih =>
    obtain ⟨qk, qv⟩ := q
    simp only [List.map_cons, List.nodup_cons] at h
    by_cases hk : qk = k
    · subst hk
      simpa [mapSet] using h
    · simp only [mapSet, if_neg hk, List.map_cons, List.nodup_cons]
      refine ⟨fun hmem => ?_, ih h.2⟩
      rcases (mem_keys_mapSet rest k qk v).mp hmem with h1 | h1
      · exact hk h1
      · exact h.1 h1

theorem mapGet_of_mem_nodup {β : Type} (k : String) (v : β) :
    ∀ m : List (String × β), (m.map Prod.fst).Nodup → (k, v) ∈ m →
      mapGet m k = some v := by
  intro m
  induction m with
  | nil =>
    intro _ hmem
    cases hmem
  | cons q rest ih =>
    obtain ⟨qk, qv⟩ := q
    intro hnd hmem
    simp only [List.map_cons, List.nodup_cons] at hnd
    rcases List.mem_cons.mp hmem with h | h
    · cases h
      simp [mapGet]
    · have hne : qk ≠ k := by
        intro he
        exact hnd.1 (he ▸ (List.mem_map.mpr ⟨(k, v), h, rfl⟩))
      simp [mapGet, if_neg hne, ih hnd.2 h]

theorem mem_of_mapGet_eq_some {β : Type} (k : String) (v : β) :
    ∀ m : List (String × β), mapGet m k = some v → (k, v) ∈ m := by
  intro m
  induction m with
  | nil =>
    intro h
    simp [mapGet] at h
  | cons q rest ih =>
    obtain ⟨qk, qv⟩ := q
    intro h
    by_cases hk : qk = k
    · subst hk
      have hqv : qv = v := by simpa [mapGet] using h
      rw [← hqv]
      exact List.mem_cons_self _ _
    · simp only [mapGet, if_neg hk] at h
      exact List.mem_cons_of_mem _ (ih h)

namespace ContentMixer

/-! ## Deduplication: characterization of the retained stories (C1) -/

/-- The input stories sharing a given fingerprint, in input order. -/
def dedupGroup (stories : List ScoredStory) (fp : String) : List ScoredStory :=
  stories.filter (fun s => decide (generateFingerprint s = fp))

/-- The conflict-resolution fold of the dedup loop restricted to one
fingerprint: keep the current holder unless a strictly higher `finalScore`
arrives. -/
def dedupCombine (acc : Option ScoredStory) (l : List ScoredStory) :
    Option ScoredStory :=
  l.foldl
    (fun acc s =>
      match acc with
      | none => some s
      | some r =>
          if r.qualityScore.finalScore < s.qualityScore.finalScore then some s
          else some r)
    acc

theorem dedupCombine_append (acc : Option ScoredStory) (g1 g2 : List ScoredStory) :
    dedupCombine acc (g1 ++ g2) = dedupCombine (dedupCombine acc g1) g2 :=
  List.foldl_append _ _ _ _

theorem mapGet_dedupStep (m : List (String × ScoredStory)) (s : ScoredStory)
    (fp : String) :
    mapGet (dedupStep m s) fp =
      if generateFingerprint s = fp then
        dedupCombine (mapGet m fp) [s]
      else mapGet m fp := by
  by_cases hfp : generateFingerprint s = fp
  · subst hfp
    simp only [dedupStep, if_pos rfl]
    cases hg : mapGet m (generateFingerprint s) with
    | none => simp [mapGet_mapSet, hg, dedupCombine]
    | some r =>
      by_cases hlt : r.qualityScore.finalScore < s.qualityScore.finalScore
      · simp [hg, if_pos hlt, mapGet_mapSet, dedupCombine]
      · simp [hg, if_neg hlt, dedupCombine]
  · simp only [dedupStep, if_neg hfp]
    cases hg : mapGet m (generateFingerprint s) with
    | none => simp [mapGet_mapSet, hfp]
    | some r =>
      by_cases hlt : r.qualityScore.finalScore < s.qualityScore.finalScore
      · simp [if_pos hlt, mapGet_mapSet, hfp]
      · simp [if_neg hlt]

theorem mapGet_foldl_dedupStep (stories : List ScoredStory)
    (m : List (String × ScoredStory)) (fp : String) :
    mapGet (stories.foldl dedupStep m) fp =
      dedupCombine (mapGet m fp) (dedupGroup stories fp) := by
  induction stories generalizing m with
  | nil => simp [dedupGroup, dedupCombine]
  | cons s rest ih =>
    simp only [List.foldl_cons, ih]
    rw [mapGet_dedupStep]
    by_cases hfp : generateFingerprint s = fp
    · rw [if_pos hfp]
      have hgroup : dedupGroup (s :: rest) fp = s :: dedupGroup rest fp := by
        simp [dedupGroup, List.filter_cons, hfp]
      rw [hgroup,
        show s :: dedupGroup rest fp = [s] ++ dedupGroup rest fp from rfl,
        dedupCombine_append]
    · rw [if_neg hfp]
      have hgroup : dedupGroup (s :: rest) fp = dedupGroup rest fp := by
        simp [dedupGroup, List.filter_cons, hfp]
      rw [hgroup]

/-- Characterization of the per-fingerprint winner: the fold keeps the first
element attaining the maximum `finalScore` of `acc :: g`. -/
theorem dedupCombine_some_spec (g : List ScoredStory) (acc r : ScoredStory)
    (h : dedupCombine (some acc) g = some r) :
    ∃ l1 l2, acc :: g = l1 ++ r :: l2
      ∧ (∀ s ∈ l1, s.qualityScore.finalScore < r.qualityScore.finalScore)
      ∧ (∀ s ∈ l2, s.qualityScore.finalScore ≤ r.qualityScore.finalScore) := by
  induction g generalizing acc with
  | nil =>
    simp only [dedupCombine, List.foldl_nil, Option.some.injEq] at h
    exact ⟨[], [], by simp [h], by simp, by simp⟩
  | cons s g' ih =>
    by_cases hlt : acc.qualityScore.finalScore < s.qualityScore.finalScore
    · have h' : dedupCombine (some s) g' = some r := by
        simpa [dedupCombine, if_pos hlt] using h
      obtain ⟨l1, l2, hdec, hl1, hl2⟩ := ih s h'
      cases l1 with
      | nil =>
        simp only [List.nil_append, List.cons.injEq] at hdec
        refine ⟨[acc], l2, ?_, ?_, ?_⟩
        · simp [hdec.1, hdec.2]
        · intro x hx
          rcases List.mem_singleton.mp hx with rfl
          exact hdec.1 ▸ hlt
        · exact hl2
      | cons p l1' =>
        simp only [List.cons_append, List.cons.injEq] at hdec
        refine ⟨acc :: p :: l1', l2, ?_, ?_, ?_⟩
        · simp [hdec.1, hdec.2]
        · intro x hx
          rcases List.mem_cons.mp hx with rfl | hx
          · have hp : s.qualityScore.finalScore < r.qualityScore.finalScore := by
              have := hl1 p (List.mem_cons_self _ _)
              exact hdec.1 ▸ this
            exact lt_trans hlt hp
          · exact hl1 x (hdec.1 ▸ hx)
        · exact hl2
    · have h' : dedupCombine (some acc) g' = some r := by
        simpa [dedupCombine, if_neg hlt] using h
      obtain ⟨l1, l2, hdec, hl1, hl2⟩ := ih acc h'
      cases l1 with
      | nil =>
        simp only [List.nil_append, List.cons.injEq] at hdec
        refine ⟨[], s :: l2, ?_, ?_, ?_⟩
        · simp [hdec.1, hdec.2]
        · simp
        · intro x hx
          rcases List.mem_cons.mp hx with rfl | hx
          · exact hdec.1 ▸ (not_lt.mp hlt)
          · exact hl2 x hx
      | cons p l1' =>
        simp only [List.cons_append, List.cons.injEq] at hdec
        refine ⟨acc :: s :: l1', l2, ?_, ?_, ?_⟩
        · simp [hdec.1, hdec.2]
        · intro x hx
          have hacc : acc.qualityScore.finalScore < r.qualityScore.finalScore := by
            have := hl1 p (List.mem_cons_self _ _)
            exact hdec.1 ▸ this
          rcases List.mem_cons.mp hx with rfl | hx
          · exact hacc
          · rcases List.mem_cons.mp hx with rfl | hx
            · exact lt_of_le_of_lt (not_lt.mp hlt) hacc
            · exact hl1 x (hdec.1 ▸ List.mem_cons_of_mem _ hx)
        · exact hl2

theorem dedupCombine_cons_none (x : ScoredStory) (g : List ScoredStory) :
    dedupCombine none (x :: g) = dedupCombine (some x) g := rfl

theorem dedupCombine_isSome (g : List ScoredStory) :
    ∀ acc : ScoredStory, ∃ r, dedupCombine (some acc) g = some r := by
  induction g with
  | nil =>
    intro acc
    exact ⟨acc, rfl⟩
  | cons s g' ih =>
    intro acc
    by_cases hlt : acc.qualityScore.finalScore < s.qualityScore.finalScore
    · obtain ⟨r, hr⟩ := ih s
      exact ⟨r, by simpa [dedupCombine, if_pos hlt] using hr⟩
    · obtain ⟨r, hr⟩ := ih acc
      exact ⟨r, by simpa [dedupCombine, if_neg hlt] using hr⟩

theorem dedupStep_keys_nodup {m : List (String × ScoredStory)} (s : ScoredStory)
    (h : (m.map Prod.fst).Nodup) : ((dedupStep m s).map Prod.fst).Nodup := by
  cases hg : mapGet m (generateFingerprint s) with
  | none =>
    have he : dedupStep m s = mapSet m (generateFingerprint s) s := by
      simp [dedupStep, hg]
    rw [he]
    exact keys_nodup_mapSet _ _ h
  | some r =>
    by_cases hlt : r.qualityScore.finalScore < s.qualityScore.finalScore
    · have he : dedupStep m s = mapSet m (generateFingerprint s) s := by
        simp [dedupStep, hg, if_pos hlt]
      rw [he]
      exact keys_nodup_mapSet _ _ h
    · have he : dedupStep m s = m := by
        simp [dedupStep, hg, if_neg hlt]
      rw [he]
      exact h

theorem foldl_dedupStep_keys_nodup (stories : List ScoredStory) :
    ∀ m : List (String × ScoredStory), (m.map Prod.fst).Nodup →
      ((stories.foldl dedupStep m).map Prod.fst).Nodup := by
  induction stories with
  | nil =>
    intro m hm
    exact hm
  | cons s rest ih =>
    intro m hm
    exact ih _ (dedupStep_keys_nodup s hm)

theorem dedupStep_key_fingerprint {m : List (String × ScoredStory)} (s : ScoredStory)
    (h : ∀ p ∈ m, p.1 = generateFingerprint p.2) :
    ∀ p ∈ dedupStep m s, p.1 = generateFingerprint p.2 := by
  intro p hp
  cases hg : mapGet m (generateFingerprint s) with
  | none =>
    have he : dedupStep m s = mapSet m (generateFingerprint s) s := by
      simp [dedupStep, hg]
    rw [he] at hp
    rcases mem_mapSet _ _ _ _ hp with h1 | h1
    · rw [h1]
    · exact h p h1
  | some r =>
    by_cases hlt : r.qualityScore.finalScore < s.qualityScore.finalScore
    · have he : dedupStep m s = mapSet m (generateFingerprint s) s := by
        simp [dedupStep, hg, if_pos hlt]
      rw [he] at hp
      rcases mem_mapSet _ _ _ _ hp with h1 | h1
      · rw [h1]
      · exact h p h1
    · have he : dedupStep m s = m := by
        simp [dedupStep, hg, if_neg hlt]
      rw [he] at hp
      exact h p hp

theorem foldl_dedupStep_key_fingerprint (stories : List ScoredStory) :
    ∀ m : List (String × ScoredStory), (∀ p ∈ m, p.1 = generateFingerprint p.2) →
      ∀ p ∈ stories.foldl dedupStep m, p.1 = generateFingerprint p.2 := by
  induction stories with
  | nil =>
    intro m hm
    exact hm
  | cons s rest ih =>
    intro m hm
    exact ih _ (dedupStep_key_fingerprint s hm)

/-- C1 (amended): the Deduper's output has pairwise-distinct fingerprints;
every input story is represented by a retained story of the same fingerprint
with at least its `finalScore`; and each retained story is the *first* story
in input order achieving the maximum `finalScore` of its fingerprint group
(ties are broken by input position: strictly better than everything before
it, at least as good as everything after it). `publishedAt` is not consulted. -/
theorem deduplicateStories_spec (stories : List ScoredStory) :
    ((deduplicateStories stories).1.Pairwise
        (fun a b => generateFingerprint a ≠ generateFingerprint b))
    ∧ (∀ s ∈ stories, ∃ r ∈ (deduplicateStories stories).1,
        generateFingerprint r = generateFingerprint s ∧
          s.qualityScore.finalScore ≤ r.qualityScore.finalScore)
    ∧ (∀ r ∈ (deduplicateStories stories).1, ∃ l1 l2,
        dedupGroup stories (generateFingerprint r) = l1 ++ r :: l2
        ∧ (∀ s ∈ l1, s.qualityScore.finalScore < r.qualityScore.finalScore)
        ∧ (∀ s ∈ l2, s.qualityScore.finalScore ≤ r.qualityScore.finalScore)) := by
  have hnd : ((stories.foldl dedupStep []).map Prod.fst).Nodup :=
    foldl_dedupStep_keys_nodup stories [] (by simp)
  have hkey : ∀ p ∈ stories.foldl dedupStep [], p.1 = generateFingerprint p.2 :=
    foldl_dedupStep_key_fingerprint stories [] (by simp)
  have hget : ∀ fp, mapGet (stories.foldl dedupStep []) fp
      = dedupCombine none (dedupGroup stories fp) := by
    intro fp
    simpa [mapGet] using mapGet_foldl_dedupStep stories [] fp
  refine ⟨?_, ?_, ?_⟩
  · have hpw : (stories.foldl dedupStep []).Pairwise (fun p q => p.1 ≠ q.1) :=
      (List.pairwise_map).mp hnd
    have : (stories.foldl dedupStep []).Pairwise
        (fun p q => generateFingerprint p.2 ≠ generateFingerprint q.2) := by
      refine hpw.imp_of_mem ?_
      intro p q hp hq hne
      rw [← hkey p hp, ← hkey q hq]
      exact hne
    exact (List.pairwise_map).mpr this
  · intro s hs
    have hsg : s ∈ dedupGroup stories (generateFingerprint s) := by
      simp [dedupGroup, List.mem_filter, hs]
    obtain ⟨x, g', hg⟩ : ∃ x g', dedupGroup stories (generateFingerprint s) = x :: g' := by
      cases hgr : dedupGroup stories (generateFingerprint s) with
      | nil => rw [hgr] at hsg; cases hsg
      | cons x g' => exact ⟨x, g', rfl⟩
    obtain ⟨r, hr⟩ := dedupCombine_isSome g' x
    have hgetr : mapGet (stories.foldl dedupStep []) (generateFingerprint s) = some r := by
      rw [hget, hg, dedupCombine_cons_none, hr]
    have hrmem : (generateFingerprint s, r) ∈ stories.foldl dedupStep [] :=
      mem_of_mapGet_eq_some _ _ _ hgetr
    have hrfp : generateFingerprint s = generateFingerprint r := hkey _ hrmem
    obtain ⟨l1, l2, hdec, hl1, hl2⟩ := dedupCombine_some_spec g' x r hr
    refine ⟨r, ?_, hrfp.symm, ?_⟩
    · exact List.mem_map.mpr ⟨(generateFingerprint s, r), hrmem, rfl⟩
    · have hsx : s ∈ l1 ++ r :: l2 := by
        rw [← hdec, ← hg]
        exact hsg
      rcases List.mem_append.mp hsx with h1 | h1
      · exact le_of_lt (hl1 s h1)
      · rcases List.mem_cons.mp h1 with rfl | h1
        · exact le_refl _
        · exact hl2 s h1
  · intro r hr
    obtain ⟨p, hpmem, hpr⟩ := List.mem_map.mp hr
    obtain ⟨k, r'⟩ := p
    cases hpr
    have hk : k = generateFingerprint r' := hkey _ hpmem
    subst hk
    have hgetr : mapGet (stories.foldl dedupStep []) (generateFingerprint r') = some r' :=
      mapGet_of_mem_nodup _ _ _ hnd hpmem
    rw [hget] at hgetr
    obtain ⟨x, g', hg⟩ : ∃ x g',
        dedupGroup stories (generateFingerprint r') = x :: g' := by
      cases hgr : dedupGroup stories (generateFingerprint r') with
      | nil => rw [hgr] at hgetr; cases hgetr
      | cons x g' => exact ⟨x, g', rfl⟩
    rw [hg, dedupCombine_cons_none] at hgetr
    obtain ⟨l1, l2, hdec, hl1, hl2⟩ := dedupCombine_some_spec g' x r' hgetr
    exact ⟨l1, l2, by rw [hg, hdec], hl1, hl2⟩

end ContentMixer

/-- A concrete scored story with all four sub-scores (and `finalScore`)
equal to `score`; used for concrete instances of the theorems. -/
def sampleStory (headline date : String) (src : Source) (score : ℚ) : ScoredStory :=
  { headline := headline
    link := headline
    date_posted := date
    author := none
    source := src
    qualityScore :=
      { relevance := score, quality := score, novelty := score, impact := score,
        finalScore := score } }

/-- C1, claim as stated is false: two posts with the same fingerprint and
tied `finalScore`s, where the *first-seen* post has the *later*
`publishedAt` (`date_posted`): the code retains the first-seen, later
published one and removes the earlier-published duplicate, contradicting the
claimed earlier-`publishedAt` tie-break. -/
theorem deduplicateStories_tiebreak_counterexample :
    (ContentMixer.deduplicateStories
        [sampleStory "Same headline" "2024-02-02" Source.account 50,
          sampleStory "Same headline!!" "2024-01-01" Source.account 50]).1
      = [sampleStory "Same headline" "2024-02-02" Source.account 50]
    ∧ (ContentMixer.deduplicateStories
        [sampleStory "Same headline" "2024-02-02" Source.account 50,
          sampleStory "Same headline!!" "2024-01-01" Source.account 50]).2 = 1
    ∧ ContentMixer.generateFingerprint
        (sampleStory "Same headline" "2024-02-02" Source.account 50)
      = ContentMixer.generateFingerprint
        (sampleStory "Same headline!!" "2024-01-01" Source.account 50)
    ∧ (sampleStory "Same headline" "2024-02-02" Source.account 50).qualityScore.finalScore
      = (sampleStory "Same headline!!" "2024-01-01" Source.account 50).qualityScore.finalScore
    ∧ ("2024-01-01" : String).toList < ("2024-02-02" : String).toList := by
  refine ⟨?_, ?_, ?_, ?_, ?_⟩ <;> decide

/-- Concrete instance of `deduplicateStories_spec`: on the two tied
duplicates above, the removed story is represented by a retained story of
equal fingerprint and at least its score. -/
theorem deduplicateStories_spec_witness :
    ∃ r ∈ (ContentMixer.deduplicateStories
        [sampleStory "Same headline" "2024-02-02" Source.account 50,
          sampleStory "Same headline!!" "2024-01-01" Source.account 50]).1,
      ContentMixer.generateFingerprint r
        = ContentMixer.generateFingerprint
            (sampleStory "Same headline!!" "2024-01-01" Source.account 50)
      ∧ (sampleStory "Same headline!!" "2024-01-01" Source.account 50).qualityScore.finalScore
          ≤ r.qualityScore.finalScore :=
  (ContentMixer.deduplicateStories_spec
      [sampleStory "Same headline" "2024-02-02" Source.account 50,
        sampleStory "Same headline!!" "2024-01-01" Source.account 50]).2.1
    (sampleStory "Same headline!!" "2024-01-01" Source.account 50)
    (by decide)

/-! ## Fingerprint normalization (C6) -/

/-- Modelled from the spec's words (§4.2): after lower-casing and stripping,
whitespace runs are *collapsed* to a single space (the code does not do
this); used only to compare the spec's claimed normalization with the
code's. -/
def collapseWs : List Char → List Char
  | [] => []
  | c :: rest =>
    let tail := collapseWs rest
    if ContentMixer.isJsWhitespace c then
      match tail with
      | [] => [' ']
      | d :: tail' =>
          if ContentMixer.isJsWhitespace d then d :: tail' else ' ' :: d :: tail'
    else c :: tail

/-- Modelled from the spec's words (§4.2 Fingerprint Deduper): lower-case,
strip all characters that are not word characters or whitespace, collapse
and trim whitespace. -/
def specNormalizeHeadline (s : String) : String :=
  String.mk (ContentMixer.trimChars (collapseWs
    ((s.toList.map Char.toLower).filter
      (fun c => ContentMixer.isWordChar c || ContentMixer.isJsWhitespace c))))

/-- C6, claim as stated is false: the code never collapses interior
whitespace, so `"a  b"` and `"a b"` — equal under the claimed normalization —
receive different fingerprints. -/
theorem generateFingerprint_collapse_counterexample :
    specNormalizeHeadline "a  b" = specNormalizeHeadline "a b"
    ∧ ContentMixer.generateFingerprint (sampleStory "a  b" "2025-01-01" Source.account 50)
        ≠ ContentMixer.generateFingerprint (sampleStory "a b" "2025-01-01" Source.account 50) := by
  refine ⟨?_, ?_⟩ <;> decide

/-- C6 (amended): the fingerprint is determined by — and only by — the
headline after lower-casing, stripping characters that are neither word
characters, whitespace, nor CJK ideographs, and trimming leading/trailing
whitespace (interior whitespace is preserved, not collapsed); two headlines
equal after this normalization always collide (e.g. Scenario A's pair), and
headlines differing after it receive different fingerprints (hash modelled
injectively). -/
theorem generateFingerprint_eq_iff (s t : ScoredStory) :
    (ContentMixer.generateFingerprint s = ContentMixer.generateFingerprint t
      ↔ ContentMixer.normalizeHeadline s.headline
          = ContentMixer.normalizeHeadline t.headline)
    ∧ ContentMixer.generateFingerprint
        (sampleStory "GPT-5 launches today" "2025-01-01" Source.account 80)
      = ContentMixer.generateFingerprint
        (sampleStory "gpt-5 launches today!!" "2025-01-02" Source.search 65) := by
  exact ⟨Iff.rfl, by decide⟩

/-! ## Dynamic ratio (C2) -/

/-- Modelled from the spec's words (§4.3 step 1): a stream's mean
`finalScore` (0 if the stream is empty), *without* the code's inner
`Math.round`; used only to compare the spec's claimed formula with the
code's. -/
def specMeanScore (stories : List ScoredStory) : ℚ :=
  if stories = [] then 0
  else (stories.map (fun s => s.qualityScore.finalScore)).sum / stories.length

/-- The tracked stream of the C2 counterexample: three posts with
`finalScore`s 1, 0, 0 (true mean 1/3, rounded mean 0). -/
def ratioCexTracked : List ScoredStory :=
  [sampleStory "tracked one" "2025-01-01" Source.account 1,
    sampleStory "tracked two" "2025-01-01" Source.account 0,
    sampleStory "tracked three" "2025-01-01" Source.account 0]

/-- The searched stream of the C2 counterexample: one post with
`finalScore` 90. -/
def ratioCexSearched : List ScoredStory :=
  [sampleStory "searched one" "2025-01-01" Source.search 90]

/-- C2, claim as stated is false: both true stream means are positive
(1/3 and 90), so the claim demands the clamped formula value 30, but the
code rounds each mean first (`calculateAverageScore` returns
`Math.round(mean)` = 0 for the tracked stream), takes its `>0 && >0` branch
to be false, and returns the neutral default 50. -/
theorem calculateDynamicRatio_counterexample :
    ContentMixer.calculateDynamicRatio
        { enabled := true, accountsMin := 30, accountsMax := 70,
          searchMin := 30, searchMax := 70 }
        ratioCexTracked ratioCexSearched = (50, 50)
    ∧ 0 < specMeanScore ratioCexTracked
    ∧ 0 < specMeanScore ratioCexSearched
    ∧ max 30 (min 70 (jsRound
        (100 * specMeanScore ratioCexTracked
          / (specMeanScore ratioCexTracked + specMeanScore ratioCexSearched)))) = 30
    ∧ (30 : ℤ) ≠ 50 := by
  have hmean_t : specMeanScore ratioCexTracked = 1 / 3 := by
    simp [specMeanScore, ratioCexTracked, sampleStory]
  have hmean_s : specMeanScore ratioCexSearched = 90 := by
    simp [specMeanScore, ratioCexSearched, sampleStory]
  have havg_t : ContentMixer.calculateAverageScore ratioCexTracked = 0 := by
    have : ((ratioCexTracked.map (fun s => s.qualityScore.finalScore)).sum
        / (ratioCexTracked.length : ℚ)) = 1 / 3 := by
      simp [ratioCexTracked, sampleStory]
    simp only [ContentMixer.calculateAverageScore, ratioCexTracked]
    rw [show ([sampleStory "tracked one" "2025-01-01" Source.account 1,
        sampleStory "tracked two" "2025-01-01" Source.account 0,
        sampleStory "tracked three" "2025-01-01" Source.account 0] = ratioCexTracked) from rfl,
      if_neg (by simp [ratioCexTracked]), this]
    simp [jsRound]
    norm_num [Int.floor_eq_iff]
  refine ⟨?_, ?_, ?_, ?_, by decide⟩
  · simp only [ContentMixer.calculateDynamicRatio, havg_t]
    norm_num
  · rw [hmean_t]
    norm_num
  · rw [hmean_s]
    norm_num
  · rw [hmean_t, hmean_s]
    norm_num [jsRound, Int.floor_eq_iff]

/-- C2 (amended): with dynamic ratio enabled and a policy admitting the
neutral default (`accountsMin ≤ 50 ≤ accountsMax`, as in the shipped
30/70 policy), every run satisfies `accountsMin ≤ accountRatio ≤
accountsMax` and `accountRatio + searchRatio = 100`; when both *rounded*
stream means (`calculateAverageScore`, i.e. `Math.round` of the mean) are
positive, `accountRatio = clamp(round(100·trackedAvg/(trackedAvg+searchedAvg)))`,
and otherwise the neutral default 50 is used. -/
theorem calculateDynamicRatio_spec (rules : DynamicRatioRules)
    (accountStories searchStories : List ScoredStory)
    (hen : rules.enabled = true)
    (hmin : rules.accountsMin ≤ 50) (hmax : 50 ≤ rules.accountsMax) :
    rules.accountsMin
        ≤ (ContentMixer.calculateDynamicRatio rules accountStories searchStories).1
    ∧ (ContentMixer.calculateDynamicRatio rules accountStories searchStories).1
        ≤ rules.accountsMax
    ∧ (ContentMixer.calculateDynamicRatio rules accountStories searchStories).1
        + (ContentMixer.calculateDynamicRatio rules accountStories searchStories).2 = 100
    ∧ (0 < ContentMixer.calculateAverageScore accountStories →
        0 < ContentMixer.calculateAverageScore searchStories →
        (ContentMixer.calculateDynamicRatio rules accountStories searchStories).1
          = max rules.accountsMin (min rules.accountsMax (jsRound
              ((ContentMixer.calculateAverageScore accountStories : ℚ)
                / ((ContentMixer.calculateAverageScore accountStories : ℚ)
                    + (ContentMixer.calculateAverageScore searchStories : ℚ)) * 100))))
    ∧ (¬ (0 < ContentMixer.calculateAverageScore accountStories
          ∧ 0 < ContentMixer.calculateAverageScore searchStories) →
        (ContentMixer.calculateDynamicRatio rules accountStories searchStories).1 = 50) := by
  have hminmax : rules.accountsMin ≤ rules.accountsMax := le_trans hmin hmax
  by_cases hpos : 0 < ContentMixer.calculateAverageScore accountStories
      ∧ 0 < ContentMixer.calculateAverageScore searchStories
  · have heq : ContentMixer.calculateDynamicRatio rules accountStories searchStories
        = (max rules.accountsMin (min rules.accountsMax (jsRound
            ((ContentMixer.calculateAverageScore accountStories : ℚ)
              / ((ContentMixer.calculateAverageScore accountStories : ℚ)
                  + (ContentMixer.calculateAverageScore searchStories : ℚ)) * 100))),
          100 - max rules.accountsMin (min rules.accountsMax (jsRound
            ((ContentMixer.calculateAverageScore accountStories : ℚ)
              / ((ContentMixer.calculateAverageScore accountStories : ℚ)
                  + (ContentMixer.calculateAverageScore searchStories : ℚ)) * 100)))) := by
      simp only [ContentMixer.calculateDynamicRatio, hen]
      rw [if_neg (by simp), if_pos hpos]
    refine ⟨?_, ?_, ?_, fun _ _ => ?_, fun hn => absurd hpos hn⟩
    · rw [heq]
      exact le_max_left _ _
    · rw [heq]
      exact max_le hminmax (min_le_left _ _)
    · rw [heq]
      ring
    · rw [heq]
  · have heq : ContentMixer.calculateDynamicRatio rules accountStories searchStories
        = (50, 50) := by
      simp only [ContentMixer.calculateDynamicRatio, hen]
      rw [if_neg (by simp), if_neg hpos]
    refine ⟨?_, ?_, ?_, fun h1 h2 => absurd ⟨h1, h2⟩ hpos, fun _ => ?_⟩ <;>
      simp [heq, hmin, hmax]

/-- Concrete instance of `calculateDynamicRatio_spec` (Scenario B's means):
tracked mean 90, searched mean 30, policy 30/70 → the clamped formula value,
which evaluates to 70, with `searchRatio = 30`. -/
theorem calculateDynamicRatio_spec_witness :
    (30 : ℤ) ≤ (ContentMixer.calculateDynamicRatio
        { enabled := true, accountsMin := 30, accountsMax := 70,
          searchMin := 30, searchMax := 70 }
        [sampleStory "b tracked" "2025-01-01" Source.account 90]
        [sampleStory "b searched" "2025-01-01" Source.search 30]).1
    ∧ (ContentMixer.calculateDynamicRatio
        { enabled := true, accountsMin := 30, accountsMax := 70,
          searchMin := 30, searchMax := 70 }
        [sampleStory "b tracked" "2025-01-01" Source.account 90]
        [sampleStory "b searched" "2025-01-01" Source.search 30]).1 ≤ 70
    ∧ (ContentMixer.calculateDynamicRatio
        { enabled := true, accountsMin := 30, accountsMax := 70,
          searchMin := 30, searchMax := 70 }
        [sampleStory "b tracked" "2025-01-01" Source.account 90]
        [sampleStory "b searched" "2025-01-01" Source.search 30]).1
      + (ContentMixer.calculateDynamicRatio
        { enabled := true, accountsMin := 30, accountsMax := 70,
          searchMin := 30, searchMax := 70 }
        [sampleStory "b tracked" "2025-01-01" Source.account 90]
        [sampleStory "b searched" "2025-01-01" Source.search 30]).2 = 100
    ∧ (ContentMixer.calculateDynamicRatio
        { enabled := true, accountsMin := 30, accountsMax := 70,
          searchMin := 30, searchMax := 70 }
        [sampleStory "b tracked" "2025-01-01" Source.account 90]
        [sampleStory "b searched" "2025-01-01" Source.search 30]).1 = 70 := by
  have h := calculateDynamicRatio_spec
    { enabled := true, accountsMin := 30, accountsMax := 70,
      searchMin := 30, searchMax := 70 }
    [sampleStory "b tracked" "2025-01-01" Source.account 90]
    [sampleStory "b searched" "2025-01-01" Source.search 30]
    rfl (by norm_num) (by norm_num)
  have havg_t : ContentMixer.calculateAverageScore
      [sampleStory "b tracked" "2025-01-01" Source.account 90] = 90 := by
    simp [ContentMixer.calculateAverageScore, sampleStory, jsRound]
    norm_num [Int.floor_eq_iff]
  have havg_s : ContentMixer.calculateAverageScore
      [sampleStory "b searched" "2025-01-01" Source.search 30] = 30 := by
    simp [ContentMixer.calculateAverageScore, sampleStory, jsRound]
    norm_num [Int.floor_eq_iff]
  refine ⟨h.1, h.2.1, h.2.2.1, ?_⟩
  have hform := h.2.2.2.1 (by rw [havg_t]; norm_num) (by rw [havg_s]; norm_num)
  rw [hform, havg_t, havg_s]
  norm_num [jsRound, Int.floor_eq_iff]

/-! ## Ratio application and size cap (C3) -/

theorem sortByDesc_length {α : Type} (key : α → ℚ) (l : List α) :
    (sortByDesc key l).length = l.length :=
  (sortByDesc_perm key l).length_eq

/-- C3: the mixed output of `applyRatio` (with the size cap as parameter) has
length at most `maxTotal`; its length is `min(targetTracked, #tracked) +
min(targetSearched, #searched)` for `targetTotal = min(totalSurvivors,
maxTotal)`, `targetTracked = round(targetTotal·accountRatio/100)`,
`targetSearched = targetTotal − targetTracked`; and each stream contributes
its top-scoring posts: any excluded post of a stream scores no higher than
any selected post of the same stream. -/
theorem applyRatioWith_spec (maxTotal : ℕ) (stories : List ScoredStory)
    (accountRatio searchRatio : ℤ)
    (h0 : 0 ≤ accountRatio) (h100 : accountRatio ≤ 100) :
    (ContentMixer.applyRatioWith maxTotal stories accountRatio searchRatio).length
        ≤ maxTotal
    ∧ (ContentMixer.applyRatioWith maxTotal stories accountRatio searchRatio).length
        = min (jsRound (((min stories.length maxTotal : ℕ) : ℚ) * (accountRatio : ℚ) / 100)).toNat
            (stories.filter (fun s => decide (s.source = Source.account))).length
          + min ((((min stories.length maxTotal : ℕ) : ℤ))
                - jsRound (((min stories.length maxTotal : ℕ) : ℚ) * (accountRatio : ℚ) / 100)).toNat
            (stories.filter (fun s => decide (s.source = Source.search))).length
    ∧ (∀ a ∈ ContentMixer.applyRatioWith maxTotal stories accountRatio searchRatio,
        a.source = Source.account →
        ∀ b ∈ stories.filter (fun s => decide (s.source = Source.account)),
          b ∉ ContentMixer.applyRatioWith maxTotal stories accountRatio searchRatio →
          b.qualityScore.finalScore ≤ a.qualityScore.finalScore)
    ∧ (∀ a ∈ ContentMixer.applyRatioWith maxTotal stories accountRatio searchRatio,
        a.source = Source.search →
        ∀ b ∈ stories.filter (fun s => decide (s.source = Source.search)),
          b ∉ ContentMixer.applyRatioWith maxTotal stories accountRatio searchRatio →
          b.qualityScore.finalScore ≤ a.qualityScore.finalScore) := by
  set accountStories := stories.filter (fun s => decide (s.source = Source.account)) with hacc
  set searchStories := stories.filter (fun s => decide (s.source = Source.search)) with hsearch
  set targetTotal : ℕ := min stories.length maxTotal with htt
  set tA : ℤ := jsRound ((targetTotal : ℚ) * (accountRatio : ℚ) / 100) with hta
  set sa := sortByDesc (fun s => s.qualityScore.finalScore) accountStories with hsa
  set ss := sortByDesc (fun s => s.qualityScore.finalScore) searchStories with hss
  have hout : ContentMixer.applyRatioWith maxTotal stories accountRatio searchRatio
      = sa.take tA.toNat ++ ss.take ((targetTotal : ℤ) - tA).toNat := rfl
  have hr100 : (accountRatio : ℚ) ≤ 100 := by exact_mod_cast h100
  have hr0 : (0 : ℚ) ≤ (accountRatio : ℚ) := by exact_mod_cast h0
  have ht0 : (0 : ℚ) ≤ (targetTotal : ℚ) := by positivity
  have hq0 : (0 : ℚ) ≤ (targetTotal : ℚ) * (accountRatio : ℚ) / 100 :=
    div_nonneg (mul_nonneg ht0 hr0) (by norm_num)
  have hqt : (targetTotal : ℚ) * (accountRatio : ℚ) / 100 ≤ (targetTotal : ℚ) := by
    rw [div_le_iff₀ (by norm_num : (0:ℚ) < 100)]
    nlinarith
  have htA0 : 0 ≤ tA := by
    rw [hta]
    exact Int.le_floor.mpr (by push_cast; linarith)
  have htAle : tA ≤ (targetTotal : ℤ) := by
    have : tA < (targetTotal : ℤ) + 1 := by
      rw [hta]
      apply Int.floor_lt.mpr
      push_cast
      linarith
    omega
  have hsalen : sa.length = accountStories.length := sortByDesc_length _ _
  have hsslen : ss.length = searchStories.length := sortByDesc_length _ _
  have hlen : (ContentMixer.applyRatioWith maxTotal stories accountRatio searchRatio).length
      = min tA.toNat accountStories.length
        + min ((targetTotal : ℤ) - tA).toNat searchStories.length := by
    rw [hout, List.length_append, List.length_take, List.length_take, hsalen, hsslen]
  have hsorted_a : sa.Sorted (fun a b => b.qualityScore.finalScore ≤ a.qualityScore.finalScore) :=
    sortByDesc_sorted _ _
  have hsorted_s : ss.Sorted (fun a b => b.qualityScore.finalScore ≤ a.qualityScore.finalScore) :=
    sortByDesc_sorted _ _
  refine ⟨?_, ?_, ?_, ?_⟩
  · rw [hlen]
    have : min tA.toNat accountStories.length + min ((targetTotal : ℤ) - tA).toNat searchStories.length
        ≤ tA.toNat + ((targetTotal : ℤ) - tA).toNat :=
      Nat.add_le_add (Nat.min_le_left _ _) (Nat.min_le_left _ _)
    have hsum : tA.toNat + ((targetTotal : ℤ) - tA).toNat = targetTotal := by omega
    have : min tA.toNat accountStories.length
        + min ((targetTotal : ℤ) - tA).toNat searchStories.length ≤ targetTotal := by omega
    exact this.trans (Nat.min_le_right _ _)
  · exact hlen
  · intro a ha hsrc b hb hnb
    have hbs : b ∈ sa := ((sortByDesc_perm _ _).mem_iff).mpr hb
    have hbdrop : b ∈ sa.drop tA.toNat := by
      rcases List.mem_append.mp ((List.take_append_drop tA.toNat sa).symm ▸ hbs) with h1 | h1
      · exact absurd (hout ▸ List.mem_append.mpr (Or.inl h1)) hnb
      · exact h1
    have hasel : a ∈ sa.take tA.toNat := by
      rw [hout] at ha
      rcases List.mem_append.mp ha with h1 | h1
      · exact h1
      · exfalso
        have : a ∈ ss := List.take_subset _ _ h1
        have : a ∈ searchStories := ((sortByDesc_perm _ _).mem_iff).mp this
        have : a.source = Source.search := by
          have := (List.mem_filter.mp this).2
          simpa using this
        rw [hsrc] at this
        cases this
    exact hsorted_a.rel_of_mem_take_of_mem_drop hasel hbdrop
  · intro a ha hsrc b hb hnb
    have hbs : b ∈ ss := ((sortByDesc_perm _ _).mem_iff).mpr hb
    have hbdrop : b ∈ ss.drop ((targetTotal : ℤ) - tA).toNat := by
      rcases List.mem_append.mp
          ((List.take_append_drop ((targetTotal : ℤ) - tA).toNat ss).symm ▸ hbs) with h1 | h1
      · exact absurd (hout ▸ List.mem_append.mpr (Or.inr h1)) hnb
      · exact h1
    have hasel : a ∈ ss.take ((targetTotal : ℤ) - tA).toNat := by
      rw [hout] at ha
      rcases List.mem_append.mp ha with h1 | h1
      · exfalso
        have : a ∈ sa := List.take_subset _ _ h1
        have : a ∈ accountStories := ((sortByDesc_perm _ _).mem_iff).mp this
        have : a.source = Source.account := by
          have := (List.mem_filter.mp this).2
          simpa using this
        rw [hsrc] at this
        cases this
      · exact h1
    exact hsorted_s.rel_of_mem_take_of_mem_drop hasel hbdrop

/-- Scenario C's survivors: 3 tracked plus 3 searched posts. -/
def scnStories : List ScoredStory :=
  [sampleStory "acc one" "2025-01-01" Source.account 90,
    sampleStory "acc two" "2025-01-01" Source.account 80,
    sampleStory "acc three" "2025-01-01" Source.account 70,
    sampleStory "sea one" "2025-01-01" Source.search 60,
    sampleStory "sea two" "2025-01-01" Source.search 50,
    sampleStory "sea three" "2025-01-01" Source.search 40]

/-- Concrete instance of `applyRatioWith_spec` (Scenario C):
`maxTotalResults = 5`, 3 tracked + 3 searched survivors at ratio 50/50 →
the output has exactly 5 posts (3 tracked + 2 searched), not 6. -/
theorem applyRatioWith_spec_witness :
    (ContentMixer.applyRatioWith 5 scnStories 50 50).length ≤ 5
    ∧ (ContentMixer.applyRatioWith 5 scnStories 50 50).length = 5 := by
  have h := applyRatioWith_spec 5 scnStories 50 50 (by norm_num) (by norm_num)
  refine ⟨h.1, ?_⟩
  rw [h.2.1]
  have e1 : (min scnStories.length 5 : ℕ) = 5 := by decide
  have eacc : (scnStories.filter (fun s => decide (s.source = Source.account))).length = 3 := by
    decide
  have esearch : (scnStories.filter (fun s => decide (s.source = Source.search))).length = 3 := by
    decide
  rw [e1, eacc, esearch]
  have e2 : jsRound (((5 : ℕ) : ℚ) * (((50 : ℤ)) : ℚ) / 100) = 3 := by
    norm_num [jsRound, Int.floor_eq_iff]
  rw [e2]
  decide

/-! ## Quality scoring (C4) -/

/-- Modelled from the spec's words (§4.1): clamp a sub-score into [0,100]. -/
def specClamp (x : ℚ) : ℚ := max 0 (min 100 x)

/-- Modelled from the spec's words (C4): the weighted rounded final score
computed after clamping each sub-score into [0,100]; used only to compare
the claim with the code. -/
def specClampedFinalScore (r : OracleScores) : ℤ :=
  jsRound (specClamp r.relevance * 0.3 + specClamp r.quality * 0.3
    + specClamp r.novelty * 0.2 + specClamp r.impact * 0.2)

/-- A fixed unscored story for concrete instances. -/
def plainStory : EnhancedStory :=
  { headline := "story", link := "link", date_posted := "2025-01-01",
    author := none, source := Source.account }

/-- C4, claim as stated is false: with sub-scores (150, 0, 0, 0) — relevance
out of range — the code attaches `round(0.3·150) = 45`, while the claimed
clamp-first computation yields `round(0.3·100) = 30`. -/
theorem scoreStory_clamp_counterexample :
    (QualityFilter.scoreStory plainStory
        { relevance := 150, quality := 0, novelty := 0, impact := 0 }).qualityScore.finalScore
      = 45
    ∧ specClampedFinalScore
        { relevance := 150, quality := 0, novelty := 0, impact := 0 } = 30
    ∧ (45 : ℚ) ≠ 30 := by
  refine ⟨?_, ?_, by norm_num⟩
  · show ((jsRound ((150 : ℚ) * 0.3 + 0 * 0.3 + 0 * 0.2 + 0 * 0.2) : ℤ) : ℚ) = 45
    norm_num [jsRound, Int.floor_eq_iff]
  · show jsRound (specClamp 150 * 0.3 + specClamp 0 * 0.3
        + specClamp 0 * 0.2 + specClamp 0 * 0.2) = 30
    norm_num [specClamp, jsRound, Int.floor_eq_iff]

/-- C4 (amended): the attached `finalScore` is
`round(0.3·relevance + 0.3·quality + 0.2·novelty + 0.2·impact)` over the
*raw* sub-scores, which are attached unmodified — never clamped and never
rejected; when the four sub-scores already lie in [0,100] this coincides
with the claimed clamp-first computation. -/
theorem scoreStory_spec (story : EnhancedStory) (r : OracleScores)
    (h1 : 0 ≤ r.relevance) (h2 : r.relevance ≤ 100)
    (h3 : 0 ≤ r.quality) (h4 : r.quality ≤ 100)
    (h5 : 0 ≤ r.novelty) (h6 : r.novelty ≤ 100)
    (h7 : 0 ≤ r.impact) (h8 : r.impact ≤ 100) :
    (QualityFilter.scoreStory story r).qualityScore.finalScore
        = ((jsRound (r.relevance * 0.3 + r.quality * 0.3
            + r.novelty * 0.2 + r.impact * 0.2) : ℤ) : ℚ)
    ∧ (QualityFilter.scoreStory story r).qualityScore.relevance = r.relevance
    ∧ (QualityFilter.scoreStory story r).qualityScore.finalScore
        = ((specClampedFinalScore r : ℤ) : ℚ) := by
  refine ⟨rfl, rfl, ?_⟩
  have hc : ∀ x : ℚ, 0 ≤ x → x ≤ 100 → specClamp x = x := by
    intro x hx0 hx100
    rw [specClamp, min_eq_right hx100, max_eq_right hx0]
  show ((jsRound (r.relevance * 0.3 + r.quality * 0.3
      + r.novelty * 0.2 + r.impact * 0.2) : ℤ) : ℚ) = _
  rw [specClampedFinalScore, hc _ h1 h2, hc _ h3 h4, hc _ h5 h6, hc _ h7 h8]

/-- Concrete instance of `scoreStory_spec`: in-range sub-scores
(80, 70, 60, 50) give `finalScore = round(24 + 21 + 12 + 10) = 67`, equal to
the clamped computation. -/
theorem scoreStory_spec_witness :
    (QualityFilter.scoreStory plainStory
        { relevance := 80, quality := 70, novelty := 60, impact := 50 }).qualityScore.finalScore
      = ((specClampedFinalScore
          { relevance := 80, quality := 70, novelty := 60, impact := 50 } : ℤ) : ℚ)
    ∧ (QualityFilter.scoreStory plainStory
        { relevance := 80, quality := 70, novelty := 60, impact := 50 }).qualityScore.finalScore
      = 67 := by
  have h := scoreStory_spec plainStory
    { relevance := 80, quality := 70, novelty := 60, impact := 50 }
    (by norm_num) (by norm_num) (by norm_num) (by norm_num)
    (by norm_num) (by norm_num) (by norm_num) (by norm_num)
  refine ⟨h.2.2, ?_⟩
  rw [h.1]
  norm_num [jsRound, Int.floor_eq_iff]

/-! ## Aggregator filter and sort (C5) -/

/-- An unscored story with a given headline and date. -/
def plainStoryAt (headline date : String) : EnhancedStory :=
  { headline := headline, link := headline, date_posted := date,
    author := none, source := Source.account }

/-- The oracle reply used by the C5 counterexample: all sub-scores 50. -/
def oracle50 : OracleScores :=
  { relevance := 50, quality := 50, novelty := 50, impact := 50 }

/-- The C5 counterexample input: two successfully scored posts, the older one
("2024-01-01") first in input order, both scoring 50. -/
def tieInputs : List (EnhancedStory × Option OracleScores) :=
  [(plainStoryAt "older post" "2024-01-01", some oracle50),
    (plainStoryAt "newer post" "2024-02-02", some oracle50)]

/-- C5, claim as stated is false: two successfully scored posts with tied
`finalScore` 50, the older one first in input order, survive a threshold of
0; the output keeps them in input order — older first — whereas the claim
requires `publishedAt` descending (more recent first) on ties. -/
theorem filterAndScore_tiebreak_counterexample :
    (QualityFilter.filterAndScore tieInputs 0).map (fun s => s.date_posted)
        = ["2024-01-01", "2024-02-02"]
    ∧ (QualityFilter.filterAndScore tieInputs 0).map
        (fun s => s.qualityScore.finalScore) = [50, 50]
    ∧ ("2024-01-01" : String).toList < ("2024-02-02" : String).toList := by
  have hfs : ∀ e : EnhancedStory,
      (QualityFilter.scoreStory e oracle50).qualityScore.finalScore = 50 := by
    intro e
    show ((jsRound ((50 : ℚ) * 0.3 + 50 * 0.3 + 50 * 0.2 + 50 * 0.2) : ℤ) : ℚ) = 50
    norm_num [jsRound, Int.floor_eq_iff]
  have hout : QualityFilter.filterAndScore tieInputs 0
      = [QualityFilter.scoreStory (plainStoryAt "older post" "2024-01-01") oracle50,
        QualityFilter.scoreStory (plainStoryAt "newer post" "2024-02-02") oracle50] := by
    have hfm : tieInputs.filterMap (fun p => p.2.map (QualityFilter.scoreStory p.1))
        = [QualityFilter.scoreStory (plainStoryAt "older post" "2024-01-01") oracle50,
          QualityFilter.scoreStory (plainStoryAt "newer post" "2024-02-02") oracle50] := rfl
    simp only [QualityFilter.filterAndScore, hfm]
    rw [List.filter_cons, List.filter_cons, List.filter_nil]
    rw [if_pos (by rw [hfs]; norm_num), if_pos (by rw [hfs]; norm_num)]
    simp only [sortByDesc, List.insertionSort, List.orderedInsert]
    rw [if_pos (by rw [hfs, hfs])]
  rw [hout]
  refine ⟨rfl, ?_, by decide⟩
  simp only [List.map_cons, List.map_nil, hfs]

/-- C5 (amended): the Aggregator's output is exactly the successfully scored
posts with `finalScore ≥ finalScoreMin` (as a permutation), sorted descending
by `finalScore`; posts with equal `finalScore` keep their relative input
order (stable sort) — `publishedAt` is not consulted as a tie-break. -/
theorem filterAndScore_spec (inputs : List (EnhancedStory × Option OracleScores))
    (finalScoreMin : ℚ) :
    List.Perm (QualityFilter.filterAndScore inputs finalScoreMin)
      (((inputs.filterMap (fun p => p.2.map (QualityFilter.scoreStory p.1)))).filter
        (fun s => decide (finalScoreMin ≤ s.qualityScore.finalScore)))
    ∧ (QualityFilter.filterAndScore inputs finalScoreMin).Sorted
        (fun a b => b.qualityScore.finalScore ≤ a.qualityScore.finalScore)
    ∧ ∀ c : ℚ,
        (QualityFilter.filterAndScore inputs finalScoreMin).filter
            (fun s : ScoredStory => decide (s.qualityScore.finalScore = c))
          = ((inputs.filterMap (fun p => p.2.map (QualityFilter.scoreStory p.1))).filter
              (fun s => decide (finalScoreMin ≤ s.qualityScore.finalScore))).filter
              (fun s : ScoredStory => decide (s.qualityScore.finalScore = c)) := by
  refine ⟨sortByDesc_perm _ _, sortByDesc_sorted _ _, fun c => ?_⟩
  exact sortByDesc_filter_eq (fun s : ScoredStory => s.qualityScore.finalScore) c _

/-! ## Historical topic trends (src/services/analysis/historicalComparison.ts, C7) -/

namespace HistoricalComparison

/-- The four-way topic trend classification. -/
inductive TopicTrend
  | new
  | hot
  | stable
  | cooling
deriving DecidableEq, Repr

/-- A current topic as read by `analyzeTopicTrends` (`Topic` restricted to
the two fields the function consumes: `name` and `storyCount`). -/
structure CurrentTopic where
  name : String
  storyCount : ℕ
deriving DecidableEq, Repr

/-- One element of `analyzeTopicTrends`' result. -/
structure TopicTrendEntry where
  name : String
  currentFrequency : ℕ
  historicalFrequency : ℚ
  trend : TopicTrend
deriving DecidableEq, Repr

/-- The if/else-if chain assigning `trend` inside `analyzeTopicTrends`. -/
def classifyTopicTrend (storyCount : ℕ) (f7 f30 : ℚ) : TopicTrend :=
  if f7 = 0 ∧ f30 = 0 then .new
  else if (storyCount : ℚ) > f7 / 7 then .hot
  else if (storyCount : ℚ) < f7 / 7 then .cooling
  else .stable

/-- `analyzeTopicTrends`: classify each current topic against the 7- and
30-day `(topic_name, total_frequency)` rows (unique names, produced by SQL
`GROUP BY`; the maps are modelled as association lists, `get(name) || 0` as
lookup with default 0). -/
def analyzeTopicTrends (currentTopics : List CurrentTopic)
    (trendingTopics7Days trendingTopics30Days : List (String × ℚ)) :
    List TopicTrendEntry :=
  currentTopics.map (fun topic =>
    let historicalFrequency7 := (mapGet trendingTopics7Days topic.name).getD 0
    let historicalFrequency30 := (mapGet trendingTopics30Days topic.name).getD 0
    { name := topic.name
      currentFrequency := topic.storyCount
      historicalFrequency := historicalFrequency7
      trend := classifyTopicTrend topic.storyCount historicalFrequency7 historicalFrequency30 })

theorem classifyTopicTrend_iff (c : ℕ) (f7 f30 : ℚ) :
    (classifyTopicTrend c f7 f30 = .new ↔ (f7 = 0 ∧ f30 = 0))
    ∧ (¬ (f7 = 0 ∧ f30 = 0) →
        ((classifyTopicTrend c f7 f30 = .hot ↔ (c : ℚ) > f7 / 7)
          ∧ (classifyTopicTrend c f7 f30 = .cooling ↔ (c : ℚ) < f7 / 7)
          ∧ (classifyTopicTrend c f7 f30 = .stable ↔ (c : ℚ) = f7 / 7))) := by
  unfold classifyTopicTrend
  by_cases hnew : f7 = 0 ∧ f30 = 0
  · rw [if_pos hnew]
    exact ⟨by simp [hnew], fun h => absurd hnew h⟩
  · rw [if_neg hnew]
    rcases lt_trichotomy ((c : ℚ)) (f7 / 7) with hlt | heq | hgt
    · have hngt : ¬ ((c : ℚ) > f7 / 7) := lt_asymm hlt
      rw [if_neg hngt, if_pos hlt]
      exact ⟨by simp [hnew], fun _ =>
        ⟨by simp [hngt], by simp [hlt], by simp [ne_of_lt hlt]⟩⟩
    · have hngt : ¬ ((c : ℚ) > f7 / 7) := by rw [heq]; exact lt_irrefl _
      have hnlt : ¬ ((c : ℚ) < f7 / 7) := by rw [heq]; exact lt_irrefl _
      rw [if_neg hngt, if_neg hnlt]
      exact ⟨by simp [hnew], fun _ =>
        ⟨by simp [hngt], by simp [hnlt], by simp [heq]⟩⟩
    · rw [if_pos hgt]
      exact ⟨by simp [hnew], fun _ =>
        ⟨by simp [hgt], by simp [lt_asymm hgt], by simp [ne_of_gt hgt]⟩⟩

end HistoricalComparison

/-- C7: for every evaluated topic, the classification is `new` exactly when
its recorded frequency is zero in both the 7-day and 30-day windows;
otherwise it is `hot` exactly when today's story count exceeds the 7-day
total frequency divided by 7, `cooling` exactly when below, `stable` exactly
on equality. -/
theorem analyzeTopicTrends_spec (currentTopics : List HistoricalComparison.CurrentTopic)
    (m7 m30 : List (String × ℚ)) (t : HistoricalComparison.CurrentTopic)
    (ht : t ∈ currentTopics) :
    ∃ e ∈ HistoricalComparison.analyzeTopicTrends currentTopics m7 m30,
      e.name = t.name
      ∧ e.currentFrequency = t.storyCount
      ∧ e.historicalFrequency = (mapGet m7 t.name).getD 0
      ∧ (e.trend = HistoricalComparison.TopicTrend.new
          ↔ ((mapGet m7 t.name).getD 0 = 0 ∧ (mapGet m30 t.name).getD 0 = 0))
      ∧ (¬ ((mapGet m7 t.name).getD 0 = 0 ∧ (mapGet m30 t.name).getD 0 = 0) →
          ((e.trend = HistoricalComparison.TopicTrend.hot
              ↔ (t.storyCount : ℚ) > (mapGet m7 t.name).getD 0 / 7)
            ∧ (e.trend = HistoricalComparison.TopicTrend.cooling
              ↔ (t.storyCount : ℚ) < (mapGet m7 t.name).getD 0 / 7)
            ∧ (e.trend = HistoricalComparison.TopicTrend.stable
              ↔ (t.storyCount : ℚ) = (mapGet m7 t.name).getD 0 / 7))) := by
  have hiff := HistoricalComparison.classifyTopicTrend_iff t.storyCount
    ((mapGet m7 t.name).getD 0) ((mapGet m30 t.name).getD 0)
  exact ⟨_, List.mem_map.mpr ⟨t, ht, rfl⟩, rfl, rfl, rfl, hiff.1, hiff.2⟩

/-- Concrete instance of `analyzeTopicTrends_spec` (Scenario D): topic
"Agents" with zero recorded frequency in both windows is classified `new`. -/
theorem analyzeTopicTrends_spec_witness :
    ∃ e ∈ HistoricalComparison.analyzeTopicTrends
        [{ name := "Agents", storyCount := 3 }] [] [],
      e.name = "Agents" ∧ e.trend = HistoricalComparison.TopicTrend.new := by
  obtain ⟨e, hmem, hname, _, _, hnew, _⟩ :=
    analyzeTopicTrends_spec [{ name := "Agents", storyCount := 3 }] [] []
      { name := "Agents", storyCount := 3 } (List.mem_singleton.mpr rfl)
  exact ⟨e, hmem, hname, hnew.mpr (by simp [mapGet])⟩

/-! ## Account activity trend (src/services/analysis/influenceScoring.ts, C8) -/

namespace InfluenceScoring

/-- The three-way account activity trend. -/
inductive ActivityTrend
  | rising
  | stable
  | declining
deriving DecidableEq, Repr

/-- The optional `historicalData` argument of `calculateTrend`; only its
`averageActivity` field is read. -/
structure HistoricalData where
  averageActivity : Option ℚ
deriving DecidableEq, Repr

/-- `calculateTrend`: with no historical data the trend is `stable`;
otherwise `historicalData.averageActivity || currentActivity` falls back to
the current count when the field is absent *or zero* (JS falsiness), and the
count is compared against ±20% of the average. `currentActivity` is
`currentStories.length`. -/
def calculateTrend (currentActivity : ℕ)
    (historicalData : Option HistoricalData) : ActivityTrend :=
  match historicalData with
  | none => .stable
  | some h =>
    let historicalAverage : ℚ :=
      match h.averageActivity with
      | some a => if a = 0 then (currentActivity : ℚ) else a
      | none => (currentActivity : ℚ)
    if (currentActivity : ℚ) > historicalAverage * 1.2 then .rising
    else if (currentActivity : ℚ) < historicalAverage * 0.8 then .declining
    else .stable

end InfluenceScoring

/-- C8: for an account with a recorded positive 7-day average, the activity
trend is `rising` exactly when the current post count exceeds the average by
more than 20%, `declining` exactly when it is more than 20% below it, and
`stable` otherwise. -/
theorem calculateTrend_spec (currentActivity : ℕ) (avg : ℚ) (hpos : 0 < avg) :
    (InfluenceScoring.calculateTrend currentActivity (some ⟨some avg⟩)
        = InfluenceScoring.ActivityTrend.rising
      ↔ (currentActivity : ℚ) > avg * 1.2)
    ∧ (InfluenceScoring.calculateTrend currentActivity (some ⟨some avg⟩)
        = InfluenceScoring.ActivityTrend.declining
      ↔ (currentActivity : ℚ) < avg * 0.8)
    ∧ (InfluenceScoring.calculateTrend currentActivity (some ⟨some avg⟩)
        = InfluenceScoring.ActivityTrend.stable
      ↔ (avg * 0.8 ≤ (currentActivity : ℚ) ∧ (currentActivity : ℚ) ≤ avg * 1.2)) := by
  have havg : InfluenceScoring.calculateTrend currentActivity (some ⟨some avg⟩)
      = (if (currentActivity : ℚ) > avg * 1.2 then InfluenceScoring.ActivityTrend.rising
        else if (currentActivity : ℚ) < avg * 0.8 then InfluenceScoring.ActivityTrend.declining
        else InfluenceScoring.ActivityTrend.stable) := by
    simp only [InfluenceScoring.calculateTrend, if_neg (ne_of_gt hpos)]
  rw [havg]
  by_cases hgt : (currentActivity : ℚ) > avg * 1.2
  · have h08 : ¬ ((currentActivity : ℚ) < avg * 0.8) := by
      intro hc
      nlinarith
    rw [if_pos hgt]
    exact ⟨by simp [hgt], by simp [h08], by
      constructor
      · intro h
        cases h
      · intro h
        exact absurd hgt (not_lt.mpr h.2)⟩
  · rw [if_neg hgt]
    by_cases hlt : (currentActivity : ℚ) < avg * 0.8
    · rw [if_pos hlt]
      exact ⟨by simp [hgt], by simp [hlt], by
        constructor
        · intro h
          cases h
        · intro h
          exact absurd hlt (not_lt.mpr h.1)⟩
    · rw [if_neg hlt]
      exact ⟨by simp [hgt], by simp [hlt], by
        simp [not_lt.mp hlt, not_lt.mp hgt]⟩

/-- Concrete instance of `calculateTrend_spec`: 13 current posts against a
7-day average of 10 (a 30% increase) classifies as `rising`. -/
theorem calculateTrend_spec_witness :
    InfluenceScoring.calculateTrend 13 (some ⟨some 10⟩)
      = InfluenceScoring.ActivityTrend.rising :=
  (calculateTrend_spec 13 10 (by norm_num)).1.mpr (by norm_num)

/-! ## Topic grouping (src/services/analysis/topicClustering.ts, C10) -/

namespace TopicClustering

/-- A topic as returned by the classifier (`topics` array of the oracle's
JSON reply). -/
structure TopicInfo where
  id : String
  name : String
  summary : String
  keywords : List String
deriving DecidableEq, Repr

/-- An output `Topic` of `groupStoriesByTopic`. -/
structure Topic where
  id : String
  name : String
  summary : String
  storyCount : ℕ
  stories : List EnhancedStory
  keywords : List String
deriving DecidableEq, Repr

/-- The topic-map initialization loop of `groupStoriesByTopic`. -/
def initTopicMap (topics : List TopicInfo) : List (String × Topic) :=
  topics.foldl
    (fun m ti =>
      mapSet m ti.id
        { id := ti.id, name := ti.name, summary := ti.summary,
          keywords := ti.keywords, storyCount := 0, stories := [] })
    []

/-- One iteration of the assignment loop: when the (parsed, in-range) index
refers to a story and the topic id is known, push the story and bump the
count; otherwise the entry is skipped silently. -/
def assignStep (stories : List EnhancedStory) (m : List (String × Topic))
    (a : ℕ × String) : List (String × Topic) :=
  if h : a.1 < stories.length then
    match mapGet m a.2 with
    | some topic =>
        mapSet m a.2
          { topic with
              stories := topic.stories ++ [stories.get ⟨a.1, h⟩],
              storyCount := topic.storyCount + 1 }
    | none => m
  else m

/-- `groupStoriesByTopic`: initialize topics, process the assignment map
(`Object.entries`, modelled as a list of index/topic-id pairs), drop empty
topics, sort descending by `storyCount`. -/
def groupStoriesByTopic (stories : List EnhancedStory) (topics : List TopicInfo)
    (assignments : List (ℕ × String)) : List Topic :=
  let m := assignments.foldl (assignStep stories) (initTopicMap topics)
  sortByDesc (fun t => (t.storyCount : ℚ))
    ((m.map Prod.snd).filter (fun t => decide (0 < t.storyCount)))

theorem mem_keys_of_mapGet_eq_some {β : Type} {m : List (String × β)} {k : String}
    {v : β} (h : mapGet m k = some v) : k ∈ m.map Prod.fst :=
  List.mem_map.mpr ⟨(k, v), mem_of_mapGet_eq_some _ _ _ h, rfl⟩

theorem mapGet_eq_none_of_not_mem_keys {β : Type} {k : String} :
    ∀ {m : List (String × β)}, k ∉ m.map Prod.fst → mapGet m k = none := by
  intro m
  induction m with
  | nil =>
    intro _
    rfl
  | cons q rest ih =>
    obtain ⟨qk, qv⟩ := q
    intro hk
    simp only [List.map_cons, List.mem_cons] at hk
    push_neg at hk
    rw [show mapGet ((qk, qv) :: rest) k = if qk = k then some qv else mapGet rest k
        from rfl,
      if_neg (fun he => hk.1 he.symm)]
    exact ih hk.2

theorem assignStep_keys (stories : List EnhancedStory)
    (m : List (String × Topic)) (a : ℕ × String) (k : String) :
    k ∈ (assignStep stories m a).map Prod.fst ↔ k ∈ m.map Prod.fst := by
  unfold assignStep
  by_cases h : a.1 < stories.length
  · rw [dif_pos h]
    cases hg : mapGet m a.2 with
    | none => rfl
    | some topic =>
      rw [mem_keys_mapSet]
      constructor
      · intro hk
        rcases hk with hk | hk
        · exact hk ▸ mem_keys_of_mapGet_eq_some hg
        · exact hk
      · exact Or.inr
  · rw [dif_neg h]

theorem foldl_assignStep_keys (stories : List EnhancedStory)
    (l : List (ℕ × String)) :
    ∀ (m : List (String × Topic)) (k : String),
      k ∈ (l.foldl (assignStep stories) m).map Prod.fst ↔ k ∈ m.map Prod.fst := by
  induction l with
  | nil =>
    intro m k
    exact Iff.rfl
  | cons a l' ih =>
    intro m k
    exact (ih _ k).trans (assignStep_keys stories m a k)

theorem mem_initTopicMap_aux (topics : List TopicInfo) :
    ∀ (m : List (String × Topic)),
      (∀ p ∈ m, (p.2 : Topic).stories = [] ∧ (p.2 : Topic).id = p.1) →
      ∀ p ∈ topics.foldl
        (fun m ti =>
          mapSet m ti.id
            { id := ti.id, name := ti.name, summary := ti.summary,
              keywords := ti.keywords, storyCount := 0, stories := [] }) m,
        (p.2 : Topic).stories = [] ∧ (p.2 : Topic).id = p.1 := by
  induction topics with
  | nil =>
    intro m hm
    exact hm
  | cons ti rest ih =>
    intro m hm
    refine ih _ ?_
    intro p hp
    rcases mem_mapSet _ _ _ _ hp with h1 | h1
    · rw [h1]
      exact ⟨rfl, rfl⟩
    · exact hm p h1

theorem mem_initTopicMap (topics : List TopicInfo) :
    ∀ p ∈ initTopicMap topics, (p.2 : Topic).stories = [] ∧ (p.2 : Topic).id = p.1 :=
  mem_initTopicMap_aux topics [] (by simp)

theorem keys_initTopicMap_aux (topics : List TopicInfo) (k : String) :
    ∀ (m : List (String × Topic)),
      (k ∈ (topics.foldl
        (fun m ti =>
          mapSet m ti.id
            { id := ti.id, name := ti.name, summary := ti.summary,
              keywords := ti.keywords, storyCount := 0, stories := [] }) m).map Prod.fst
        ↔ k ∈ m.map Prod.fst ∨ k ∈ topics.map TopicInfo.id) := by
  induction topics with
  | nil =>
    intro m
    simp
  | cons ti rest ih =>
    intro m
    rw [List.foldl_cons, ih, mem_keys_mapSet]
    simp only [List.map_cons, List.mem_cons]
    tauto

theorem keys_initTopicMap (topics : List TopicInfo) (k : String) :
    k ∈ (initTopicMap topics).map Prod.fst ↔ k ∈ topics.map TopicInfo.id := by
  rw [initTopicMap, keys_initTopicMap_aux]
  simp

/-- The id of each map value equals its key, throughout the assignment fold. -/
theorem foldl_assignStep_id (stories : List EnhancedStory)
    (l : List (ℕ × String)) :
    ∀ (m : List (String × Topic)),
      (∀ p ∈ m, (p.2 : Topic).id = p.1) →
      ∀ p ∈ l.foldl (assignStep stories) m, (p.2 : Topic).id = p.1 := by
  induction l with
  | nil =>
    intro m hm
    exact hm
  | cons a l' ih =>
    intro m hm
    refine ih _ ?_
    intro p hp
    unfold assignStep at hp
    by_cases h : a.1 < stories.length
    · rw [dif_pos h] at hp
      revert hp
      cases hg : mapGet m a.2 with
      | none =>
        intro hp
        exact hm p hp
      | some topic =>
        intro hp
        rcases mem_mapSet _ _ _ _ hp with h1 | h1
        · rw [h1]
          exact hm (a.2, topic) (mem_of_mapGet_eq_some _ _ _ hg)
        · exact hm p h1
    · rw [dif_neg h] at hp
      exact hm p hp

/-- Fold invariant for story provenance: if `P k s` holds of every story
already in the map and of every story reachable through an assignment of
`l` whose topic id is a key of the map, it holds of every story in the
folded map. -/
theorem foldl_assignStep_provenance (stories : List EnhancedStory)
    (P : String → EnhancedStory → Prop) (l : List (ℕ × String)) :
    ∀ (m : List (String × Topic)),
      (∀ p ∈ m, ∀ s ∈ (p.2 : Topic).stories, P p.1 s) →
      (∀ (j : ℕ) (t : String), (j, t) ∈ l → t ∈ m.map Prod.fst →
        ∀ hj : j < stories.length, P t (stories.get ⟨j, hj⟩)) →
      ∀ p ∈ l.foldl (assignStep stories) m, ∀ s ∈ (p.2 : Topic).stories, P p.1 s := by
  induction l with
  | nil =>
    intro m hm _
    exact hm
  | cons a l' ih =>
    intro m hm hl
    refine ih _ ?_ ?_
    · intro p hp s hs
      unfold assignStep at hp
      by_cases h : a.1 < stories.length
      · rw [dif_pos h] at hp
        revert hp
        cases hg : mapGet m a.2 with
        | none =>
          intro hp
          exact hm p hp s hs
        | some topic =>
          intro hp
          rcases mem_mapSet _ _ _ _ hp with h1 | h1
          · rw [h1] at hs ⊢
            simp only [List.mem_append, List.mem_singleton] at hs
            rcases hs with hs | hs
            · exact hm (a.2, topic) (mem_of_mapGet_eq_some _ _ _ hg) s hs
            · rw [hs]
              exact hl a.1 a.2 (List.mem_cons_self _ _)
                (mem_keys_of_mapGet_eq_some hg) h
          · exact hm p h1 s hs
      · rw [dif_neg h] at hp
        exact hm p hp s hs
    · intro j t hjt hkeys hj
      refine hl j t (List.mem_cons_of_mem _ hjt) ?_ hj
      exact (assignStep_keys stories m a t).mp hkeys

end TopicClustering

/-- C10: an assignment entry whose topic id matches no topic returned by the
classifier is silently ignored — the grouped output is the same as if the
entry were absent, and every story appearing in any output topic is
justified by some *other* assignment whose topic id is a real topic id
matching the containing topic. In particular a story referenced only by the
dangling entry is absent from every topic's `stories`. -/
theorem groupStoriesByTopic_unknown_topic_spec (stories : List EnhancedStory)
    (topics : List TopicClustering.TopicInfo) (l1 l2 : List (ℕ × String))
    (i : ℕ) (tid : String)
    (htid : tid ∉ topics.map TopicClustering.TopicInfo.id) :
    TopicClustering.groupStoriesByTopic stories topics (l1 ++ (i, tid) :: l2)
        = TopicClustering.groupStoriesByTopic stories topics (l1 ++ l2)
    ∧ ∀ T ∈ TopicClustering.groupStoriesByTopic stories topics (l1 ++ (i, tid) :: l2),
        ∀ s ∈ T.stories, ∃ j t, (j, t) ∈ l1 ++ l2 ∧ t = T.id
          ∧ t ∈ topics.map TopicClustering.TopicInfo.id
          ∧ ∃ hj : j < stories.length, stories.get ⟨j, hj⟩ = s := by
  have hskip : ∀ m : List (String × TopicClustering.Topic),
      tid ∉ m.map Prod.fst → TopicClustering.assignStep stories m (i, tid) = m := by
    intro m hk
    unfold TopicClustering.assignStep
    by_cases h : i < stories.length
    · rw [dif_pos h]
      rw [show mapGet m tid = none from
        TopicClustering.mapGet_eq_none_of_not_mem_keys hk]
    · rw [dif_neg h]
  have hfoldeq : (l1 ++ (i, tid) :: l2).foldl (TopicClustering.assignStep stories)
        (TopicClustering.initTopicMap topics)
      = (l1 ++ l2).foldl (TopicClustering.assignStep stories)
        (TopicClustering.initTopicMap topics) := by
    rw [List.foldl_append, List.foldl_append, List.foldl_cons]
    congr 1
    apply hskip
    intro hk
    exact htid ((TopicClustering.keys_initTopicMap topics tid).mp
      ((TopicClustering.foldl_assignStep_keys stories l1 _ tid).mp hk))
  have heq : TopicClustering.groupStoriesByTopic stories topics (l1 ++ (i, tid) :: l2)
      = TopicClustering.groupStoriesByTopic stories topics (l1 ++ l2) := by
    unfold TopicClustering.groupStoriesByTopic
    rw [hfoldeq]
  refine ⟨heq, ?_⟩
  intro T hT s hs
  rw [heq] at hT
  have hT' : T ∈ ((l1 ++ l2).foldl (TopicClustering.assignStep stories)
      (TopicClustering.initTopicMap topics)).map Prod.snd := by
    have h1 := (sortByDesc_perm (fun t : TopicClustering.Topic => (t.storyCount : ℚ)) _).mem_iff.mp
      hT
    exact List.mem_filter.mp h1 |>.1
  obtain ⟨p, hpmem, hpT⟩ := List.mem_map.mp hT'
  have hid : (p.2 : TopicClustering.Topic).id = p.1 :=
    TopicClustering.foldl_assignStep_id stories (l1 ++ l2) _
      (fun q hq => (TopicClustering.mem_initTopicMap topics q hq).2) p hpmem
  have hprov := TopicClustering.foldl_assignStep_provenance stories
    (fun k s => ∃ j t, (j, t) ∈ l1 ++ l2 ∧ t = k
      ∧ t ∈ topics.map TopicClustering.TopicInfo.id
      ∧ ∃ hj : j < stories.length, stories.get ⟨j, hj⟩ = s)
    (l1 ++ l2) (TopicClustering.initTopicMap topics)
    (fun q hq s hs => by
      rw [(TopicClustering.mem_initTopicMap topics q hq).1] at hs
      cases hs)
    (fun j t hjt hkeys hj =>
      ⟨j, t, hjt, rfl, (TopicClustering.keys_initTopicMap topics t).mp hkeys, hj, rfl⟩)
    p hpmem s (by rw [hpT]; exact hs)
  rw [← hpT, hid]
  exact hprov

/-- Concrete instance of `groupStoriesByTopic_unknown_topic_spec`: the
assignment `1 ↦ "zzz"` references no topic, so the output equals the one
without it and the second story lands in no topic. -/
theorem groupStoriesByTopic_unknown_topic_witness :
    TopicClustering.groupStoriesByTopic
        [plainStoryAt "story zero" "2025-01-01", plainStoryAt "story one" "2025-01-01"]
        [{ id := "t1", name := "Topic", summary := "S", keywords := [] }]
        [(0, "t1"), (1, "zzz")]
      = TopicClustering.groupStoriesByTopic
        [plainStoryAt "story zero" "2025-01-01", plainStoryAt "story one" "2025-01-01"]
        [{ id := "t1", name := "Topic", summary := "S", keywords := [] }]
        [(0, "t1")]
    ∧ ∀ T ∈ TopicClustering.groupStoriesByTopic
        [plainStoryAt "story zero" "2025-01-01", plainStoryAt "story one" "2025-01-01"]
        [{ id := "t1", name := "Topic", summary := "S", keywords := [] }]
        [(0, "t1"), (1, "zzz")],
        plainStoryAt "story one" "2025-01-01" ∉ T.stories := by
  have h := groupStoriesByTopic_unknown_topic_spec
    [plainStoryAt "story zero" "2025-01-01", plainStoryAt "story one" "2025-01-01"]
    [{ id := "t1", name := "Topic", summary := "S", keywords := [] }]
    [(0, "t1")] [] 1 "zzz" (by decide)
  refine ⟨h.1, ?_⟩
  intro T hT hmem
  obtain ⟨j, t, hjt, _, _, hj, hget⟩ := h.2 T hT _ hmem
  have hj0 : j = 0 := by
    have : (j, t) = (0, "t1") := by simpa using hjt
    exact congrArg Prod.fst this
  subst hj0
  have hv : [plainStoryAt "story zero" "2025-01-01",
      plainStoryAt "story one" "2025-01-01"].get ⟨0, hj⟩
      = plainStoryAt "story zero" "2025-01-01" := rfl
  rw [hv] at hget
  exact absurd hget (by decide)

/-! ## History Recorder (src/services/storage/historyStorage.ts, C9)

`better-sqlite3` semantics: a bare `stmt.run(...)` autocommits on its own;
`db.transaction(fn)` commits `fn`'s statements atomically. `saveDailyReport`
therefore executes FIVE separate commit units in order:
1. the `daily_reports` INSERT (fails on the `date` UNIQUE constraint),
2. the `daily_stories` batch (one transaction),
3. the `daily_topics` batch (one transaction),
4. the `trending_topics` batch (`updateTrendingTopics`, one transaction),
5. the `account_activity` batch (`updateAccountActivity`, one transaction).
A crash between units leaves exactly a prefix committed. The wall-clock
`date` (`new Date().toISOString().split("T")[0]`) is a parameter; the
`created_at` audit columns (pure timestamps, no constraints) are omitted. -/

namespace HistoryStorage

/-- A story as typed in historyStorage.ts (the consumed fields;
`qualityScore` is the optional `finalScore`). -/
structure HStory where
  headline : String
  link : String
  author : Option String
  date_posted : String
  source : Source
  qualityScore : Option ℚ
deriving DecidableEq, Repr

/-- A topic group as consumed by `saveDailyReport`. -/
structure HTopic where
  id : String
  name : String
  summary : String
  storyCount : ℕ
  stories : List HStory
  keywords : List String
deriving DecidableEq, Repr

/-- Row of `daily_reports` (`date` is UNIQUE). -/
structure ReportRow where
  id : ℕ
  date : String
  total_stories : ℕ
  quality_passed : ℕ
  avg_quality_score : ℚ
  topic_count : ℕ
deriving DecidableEq, Repr

/-- Row of `daily_stories`. -/
structure StoryRow where
  report_id : ℕ
  headline : String
  link : String
  author : Option String
  date_posted : String
  source : Source
  quality_score : Option ℚ
  topic_id : Option String
deriving DecidableEq, Repr

/-- Row of `daily_topics` (`keywords` is JSON-stringified in the source). -/
structure TopicRow where
  report_id : ℕ
  topic_id : String
  topic_name : String
  topic_summary : String
  story_count : ℕ
  keywords : List String
deriving DecidableEq, Repr

/-- Row of `trending_topics`. -/
structure TrendingRow where
  date : String
  topic_name : String
  frequency : ℕ
  avg_quality : ℚ
deriving DecidableEq, Repr

/-- Row of `account_activity`. -/
structure ActivityRow where
  date : String
  account : String
  tweet_count : ℕ
  avg_quality : ℚ
deriving DecidableEq, Repr

/-- The five tables `saveDailyReport` writes, plus the `daily_reports`
AUTOINCREMENT counter (`lastInsertRowid`). -/
structure Database where
  daily_reports : List ReportRow
  daily_stories : List StoryRow
  daily_topics : List TopicRow
  trending_topics : List TrendingRow
  account_activity : List ActivityRow
  nextReportId : ℕ
deriving DecidableEq, Repr

/-- The distinct error kind of a duplicate-date write
(SQLITE_CONSTRAINT_UNIQUE on `daily_reports.date`). -/
inductive SaveError
  | uniqueDate
deriving DecidableEq, Repr

/-- Whether `daily_reports` already holds a row for this date. -/
def hasDate (db : Database) (date : String) : Bool :=
  db.daily_reports.any (fun r => decide (r.date = date))

/-- JS falsiness of `x || null` on an optional string (absent or empty). -/
def orNullStr (x : Option String) : Option String :=
  match x with
  | none => none
  | some a => if a = "" then none else some a

/-- JS falsiness of `x || null` on an optional number (absent or zero). -/
def orNullNum (x : Option ℚ) : Option ℚ :=
  match x with
  | none => none
  | some q => if q = 0 then none else some q

/-- The `storyToTopic` link→topic-id map built inside the stories
transaction. -/
def storyToTopic (topics : List HTopic) : List (String × String) :=
  topics.foldl
    (fun m topic => topic.stories.foldl (fun m story => mapSet m story.link topic.id) m)
    []

/-- The `daily_stories` rows of one save. -/
def storyRows (reportId : ℕ) (stories : List HStory) (topics : List HTopic) :
    List StoryRow :=
  stories.map (fun story =>
    { report_id := reportId
      headline := story.headline
      link := story.link
      author := orNullStr story.author
      date_posted := story.date_posted
      source := story.source
      quality_score := orNullNum story.qualityScore
      topic_id := mapGet (storyToTopic topics) story.link })

/-- The `daily_topics` rows of one save. -/
def topicRows (reportId : ℕ) (topics : List HTopic) : List TopicRow :=
  topics.map (fun t =>
    { report_id := reportId, topic_id := t.id, topic_name := t.name,
      topic_summary := t.summary, story_count := t.storyCount,
      keywords := t.keywords })

/-- `calculateAvgQuality`: 0 on empty input, else the mean of
`qualityScore?.finalScore || 0`. -/
def calculateAvgQuality (stories : List HStory) : ℚ :=
  if stories = [] then 0
  else (stories.map (fun s => s.qualityScore.getD 0)).sum / stories.length

/-- The `trending_topics` rows of one save (`updateTrendingTopics`). -/
def trendingRows (date : String) (topics : List HTopic) : List TrendingRow :=
  topics.map (fun t =>
    { date := date, topic_name := t.name, frequency := t.storyCount,
      avg_quality := calculateAvgQuality t.stories })

/-- The per-account `(count, totalQuality)` map of `updateAccountActivity`
(stories without an author — or with an empty, falsy one — are skipped). -/
def accountStats (stories : List HStory) : List (String × (ℕ × ℚ)) :=
  stories.foldl
    (fun m story =>
      match story.author with
      | none => m
      | some a =>
          if a = "" then m
          else
            let prev := (mapGet m a).getD (0, 0)
            mapSet m a (prev.1 + 1, prev.2 + story.qualityScore.getD 0))
    []

/-- The `account_activity` rows of one save. -/
def activityRows (date : String) (stories : List HStory) : List ActivityRow :=
  (accountStats stories).map (fun p =>
    { date := date, account := p.1, tweet_count := p.2.1,
      avg_quality := if 0 < p.2.1 then p.2.2 / (p.2.1 : ℚ) else 0 })

/-- The report row inserted by the first commit unit. -/
def mkReportRow (reportId : ℕ) (date : String) (stories : List HStory)
    (topics : List HTopic) (avgQualityScore : ℚ) : ReportRow :=
  { id := reportId, date := date, total_stories := stories.length,
    quality_passed := stories.length, avg_quality_score := avgQualityScore,
    topic_count := topics.length }

/-- The database state after the first `k` of the five commit units of
`saveDailyReport` (`k = 5` is the completed call; a crash between units
leaves exactly such a prefix). A duplicate date makes the first unit fail
before writing anything, so the state is unchanged for every `k`. -/
def saveDailyReportState (k : ℕ) (date : String) (stories : List HStory)
    (topics : List HTopic) (avgQualityScore : ℚ) (db : Database) : Database :=
  if hasDate db date then db
  else
    let reportId := db.nextReportId
    let db1 := if 1 ≤ k then
        { db with
            daily_reports := db.daily_reports
              ++ [mkReportRow reportId date stories topics avgQualityScore],
            nextReportId := reportId + 1 }
      else db
    let db2 := if 2 ≤ k then
        { db1 with daily_stories := db1.daily_stories ++ storyRows reportId stories topics }
      else db1
    let db3 := if 3 ≤ k then
        { db2 with daily_topics := db2.daily_topics ++ topicRows reportId topics }
      else db2
    let db4 := if 4 ≤ k then
        { db3 with trending_topics := db3.trending_topics ++ trendingRows date topics }
      else db3
    if 5 ≤ k then
      { db4 with account_activity := db4.account_activity ++ activityRows date stories }
    else db4

/-- `saveDailyReport`: the resulting state and either the new report's
`lastInsertRowid` or the duplicate-date constraint error (re-thrown to the
caller). -/
def saveDailyReport (date : String) (stories : List HStory) (topics : List HTopic)
    (avgQualityScore : ℚ) (db : Database) : Database × Except SaveError ℕ :=
  if hasDate db date then (db, Except.error SaveError.uniqueDate)
  else (saveDailyReportState 5 date stories topics avgQualityScore db,
    Except.ok db.nextReportId)

end HistoryStorage

/-- An empty database (sqlite rowids start at 1). -/
def emptyHDb : HistoryStorage.Database :=
  { daily_reports := [], daily_stories := [], daily_topics := [],
    trending_topics := [], account_activity := [], nextReportId := 1 }

/-- The story persisted in the concrete C9 runs. -/
def cexHStory : HistoryStorage.HStory :=
  { headline := "launch day", link := "link-one", author := some "alice",
    date_posted := "2026-10-12", source := Source.account, qualityScore := some 80 }

/-- The topic group persisted in the concrete C9 runs. -/
def cexHTopic : HistoryStorage.HTopic :=
  { id := "t1", name := "Launches", summary := "S", storyCount := 1,
    stories := [cexHStory], keywords := [] }

/-- C9, claim as stated is false: the save is NOT atomic. Crashing after the
first of the five commit units (the standalone `daily_reports` INSERT, which
autocommits outside any transaction) leaves a reachable committed state with
the day's report row present but none of its story rows — neither "the full
set of rows commits" nor "none do". -/
theorem saveDailyReport_atomicity_counterexample :
    (HistoryStorage.saveDailyReportState 1 "2026-10-12" [cexHStory] [cexHTopic] 80
        emptyHDb).daily_reports.length = 1
    ∧ (HistoryStorage.saveDailyReportState 1 "2026-10-12" [cexHStory] [cexHTopic] 80
        emptyHDb).daily_stories.length = 0
    ∧ (HistoryStorage.saveDailyReportState 5 "2026-10-12" [cexHStory] [cexHTopic] 80
        emptyHDb).daily_reports.length = 1
    ∧ (HistoryStorage.saveDailyReportState 5 "2026-10-12" [cexHStory] [cexHTopic] 80
        emptyHDb).daily_stories.length = 1
    ∧ HistoryStorage.saveDailyReportState 1 "2026-10-12" [cexHStory] [cexHTopic] 80
        emptyHDb ≠ emptyHDb := by
  refine ⟨rfl, rfl, rfl, rfl, ?_⟩
  intro h
  have := congrArg (fun db : HistoryStorage.Database => db.daily_reports.length) h
  simp only [emptyHDb] at this
  exact absurd this (by decide)

/-- C9 (amended): `saveDailyReport` runs five separate commit units (report
row; story rows; topic rows; trending rows; account-activity rows), not one
transaction. A save for a fresh date succeeds with the new report id and
appends the full set of rows to all five tables, but the state after only
the first unit — a reachable commit point — already holds the report row
with no story rows. A save for an already-recorded date fails with the
unique-date constraint error during the first unit, leaving every table
unchanged at every commit point. -/
theorem saveDailyReport_spec (date : String) (stories : List HistoryStorage.HStory)
    (topics : List HistoryStorage.HTopic) (avgQualityScore : ℚ)
    (db : HistoryStorage.Database) :
    (HistoryStorage.hasDate db date = true →
      HistoryStorage.saveDailyReport date stories topics avgQualityScore db
          = (db, Except.error HistoryStorage.SaveError.uniqueDate)
      ∧ ∀ k, HistoryStorage.saveDailyReportState k date stories topics avgQualityScore db
          = db)
    ∧ (HistoryStorage.hasDate db date = false →
      HistoryStorage.saveDailyReport date stories topics avgQualityScore db
          = (HistoryStorage.saveDailyReportState 5 date stories topics avgQualityScore db,
            Except.ok db.nextReportId)
      ∧ (HistoryStorage.saveDailyReportState 5 date stories topics avgQualityScore
          db).daily_reports
          = db.daily_reports
            ++ [HistoryStorage.mkReportRow db.nextReportId date stories topics avgQualityScore]
      ∧ (HistoryStorage.saveDailyReportState 5 date stories topics avgQualityScore
          db).daily_stories
          = db.daily_stories ++ HistoryStorage.storyRows db.nextReportId stories topics
      ∧ (HistoryStorage.saveDailyReportState 5 date stories topics avgQualityScore
          db).daily_topics
          = db.daily_topics ++ HistoryStorage.topicRows db.nextReportId topics
      ∧ (HistoryStorage.saveDailyReportState 5 date stories topics avgQualityScore
          db).trending_topics
          = db.trending_topics ++ HistoryStorage.trendingRows date topics
      ∧ (HistoryStorage.saveDailyReportState 5 date stories topics avgQualityScore
          db).account_activity
          = db.account_activity ++ HistoryStorage.activityRows date stories
      ∧ (HistoryStorage.saveDailyReportState 1 date stories topics avgQualityScore
          db).daily_reports
          = db.daily_reports
            ++ [HistoryStorage.mkReportRow db.nextReportId date stories topics avgQualityScore]
      ∧ (HistoryStorage.saveDailyReportState 1 date stories topics avgQualityScore
          db).daily_stories
          = db.daily_stories) := by
  constructor
  · intro h
    refine ⟨?_, ?_⟩
    · unfold HistoryStorage.saveDailyReport
      rw [if_pos h]
    · intro k
      unfold HistoryStorage.saveDailyReportState
      rw [if_pos h]
  · intro h
    have hcond : ¬ (HistoryStorage.hasDate db date = true) := by
      rw [h]
      exact Bool.false_ne_true
    have h5 : HistoryStorage.saveDailyReportState 5 date stories topics avgQualityScore db
        = { db with
            daily_reports := db.daily_reports
              ++ [HistoryStorage.mkReportRow db.nextReportId date stories topics
                  avgQualityScore],
            nextReportId := db.nextReportId + 1,
            daily_stories := db.daily_stories
              ++ HistoryStorage.storyRows db.nextReportId stories topics,
            daily_topics := db.daily_topics
              ++ HistoryStorage.topicRows db.nextReportId topics,
            trending_topics := db.trending_topics
              ++ HistoryStorage.trendingRows date topics,
            account_activity := db.account_activity
              ++ HistoryStorage.activityRows date stories } := by
      unfold HistoryStorage.saveDailyReportState
      rw [if_neg hcond]
      rfl
    have h1 : HistoryStorage.saveDailyReportState 1 date stories topics avgQualityScore db
        = { db with
            daily_reports := db.daily_reports
              ++ [HistoryStorage.mkReportRow db.nextReportId date stories topics
                  avgQualityScore],
            nextReportId := db.nextReportId + 1 } := by
      unfold HistoryStorage.saveDailyReportState
      rw [if_neg hcond]
      rfl
    refine ⟨?_, by rw [h5], by rw [h5], by rw [h5], by rw [h5], by rw [h5],
      by rw [h1], by rw [h1]⟩
    unfold HistoryStorage.saveDailyReport
    rw [if_neg hcond]

/-- Concrete instance of `saveDailyReport_spec` (Scenario E): the first save
for 2026-10-12 succeeds with report id 1; re-running the save for the same
date fails with the duplicate-date error and leaves the first save's state
unchanged. -/
theorem saveDailyReport_spec_witness :
    (HistoryStorage.saveDailyReport "2026-10-12" [cexHStory] [cexHTopic] 80 emptyHDb).2
        = Except.ok 1
    ∧ HistoryStorage.saveDailyReport "2026-10-12" [cexHStory] [cexHTopic] 80
        (HistoryStorage.saveDailyReport "2026-10-12" [cexHStory] [cexHTopic] 80 emptyHDb).1
      = ((HistoryStorage.saveDailyReport "2026-10-12" [cexHStory] [cexHTopic] 80
          emptyHDb).1,
        Except.error HistoryStorage.SaveError.uniqueDate) := by
  have hfirst := (saveDailyReport_spec "2026-10-12" [cexHStory] [cexHTopic] 80 emptyHDb).2
    rfl
  have hdup : HistoryStorage.hasDate
      (HistoryStorage.saveDailyReport "2026-10-12" [cexHStory] [cexHTopic] 80 emptyHDb).1
      "2026-10-12" = true := by
    rw [hfirst.1]
    rfl
  have hsecond := (saveDailyReport_spec "2026-10-12" [cexHStory] [cexHTopic] 80
    (HistoryStorage.saveDailyReport "2026-10-12" [cexHStory] [cexHTopic] 80 emptyHDb).1).1
    hdup
  refine ⟨?_, hsecond.1⟩
  rw [hfirst.1]
  rfl
